import Mathlib

/-!
Verification of the Zillow data-connector pipeline.

The development shallowly embeds the parts of the code base that the
verified properties concern:

* `transforms/common.py` — `load_and_melt`'s melt step, `merge_variants`,
  `standardize_columns`;
* `ingest/zillow_data.py` — the dataset catalog and the download loop;
* `subsets_utils/io.py` — the guard structure of `upload_data`;
* `subsets_utils/http_client.py` — `CachedClient.request` with its cache;
* `subsets_utils/testing.py` — the `validate` schema checker.

A pandas `DataFrame` is modelled as a list of column names together with a
list of rows, each row a list of cells; a cell is `Option String` (CSV data
is text, `none` models NaN/null).  Library functions external to the
repository (`pd.to_datetime(...).strftime`, `pd.to_numeric`) are passed in
as function parameters.  Python's `str.lower` and string comparison are
modelled by explicit character-level functions (code-point order, ASCII
case folding) so that everything evaluates by `decide`.  The row order
produced by `pd.merge` and `sort_values` is modelled by an explicit
deterministic order; no verified property depends on row order beyond
permutation.
-/

namespace Zillow

/-! ### String helpers (models of Python primitives) -/

/-- ASCII lower-casing of one character (model of Python `str.lower` per char). -/
def lowerChar (c : Char) : Char :=
  if c.toNat ≥ 65 ∧ c.toNat ≤ 90 then Char.ofNat (c.toNat + 32) else c

/-- Model of Python `str.lower()` (ASCII). -/
def pyLower (s : String) : String := ⟨s.data.map lowerChar⟩

/-- Code-point comparison of characters. -/
def charLT (a b : Char) : Bool := a.toNat < b.toNat

/-- Lexicographic `≤` on character lists (model of Python string comparison). -/
def lexLE : List Char → List Char → Bool
  | [], _ => true
  | _ :: _, [] => false
  | a :: as, b :: bs => charLT a b || (a == b && lexLE as bs)

/-- Lexicographic `≤` on strings. -/
def strLE (a b : String) : Bool := lexLE a.data b.data

/-- Lexicographic `<` on strings. -/
def strLT (a b : String) : Bool := strLE a b && !(a == b)

/-- `c[0].isdigit()` from `load_and_melt`: does the first character of a
column name exist and is it a digit?  (Date columns in the raw CSVs are
digit-led.) -/
def firstIsDigit (s : String) : Bool :=
  match s.data with
  | [] => false
  | c :: _ => c.isDigit

/-- Insert into a list ordered by the boolean relation `le`. -/
def insertLE {α : Type} (le : α → α → Bool) (a : α) : List α → List α
  | [] => [a]
  | b :: bs => if le a b then a :: b :: bs else b :: insertLE le a bs

/-- Insertion sort by the boolean relation `le` (deterministic model of the
sorts performed by the libraries the code calls). -/
def sortLE {α : Type} (le : α → α → Bool) (l : List α) : List α :=
  l.foldr (insertLE le) []

/-! ### DataFrame model -/

/-- Index of the first column named `c` (pandas label lookup). -/
def colIdx : List String → String → Option Nat
  | [], _ => none
  | c' :: cs, c => if c' = c then some 0 else (colIdx cs c).map (· + 1)

/-- Cell of row `r` in column `c`, given the column-name list `cols`.
Missing column or short row reads as null. -/
def cellL (cols : List String) (r : List (Option String)) (c : String) : Option String :=
  match colIdx cols c with
  | none => none
  | some i => r.getD i none

/-- A pandas DataFrame: column names plus rows of optional text cells. -/
structure DF where
  cols : List String
  rows : List (List (Option String))
deriving DecidableEq

/-- Cell access `df.loc[r, c]`. -/
def DF.cell (df : DF) (r : List (Option String)) (c : String) : Option String :=
  cellL df.cols r c

/-- Rectangularity: every row has exactly one cell per column.  This is the
representation invariant of pandas DataFrames in this model. -/
def DF.WF (df : DF) : Prop := ∀ r ∈ df.rows, r.length = df.cols.length

instance (df : DF) : Decidable df.WF := by
  unfold DF.WF
  infer_instance

/-- `df[cs]` — column projection in the given order. -/
def selectCols (cs : List String) (df : DF) : DF :=
  ⟨cs, df.rows.map (fun r => cs.map (fun c => cellL df.cols r c))⟩

/-- Row part of `df.drop(columns=cs)`. -/
def dropRow (cols cs : List String) (r : List (Option String)) : List (Option String) :=
  ((cols.zip r).filter (fun p => decide (p.1 ∉ cs))).map (fun p => p.2)

/-- `df.drop(columns=cs)` — removes every column whose label is in `cs`. -/
def dropCols (cs : List String) (df : DF) : DF :=
  ⟨df.cols.filter (fun c => decide (c ∉ cs)),
   df.rows.map (fun r => dropRow df.cols cs r)⟩

/-- `df[c] = df[c].map f` — pointwise update of one column (the first
column with that label; a no-op when the label is absent). -/
def mapCol (c : String) (f : Option String → Option String) (df : DF) : DF :=
  match colIdx df.cols c with
  | none => df
  | some i => ⟨df.cols, df.rows.map (fun r => r.set i (f (r.getD i none)))⟩

/-! ### transforms/common.py -/

/-- `REGION_TYPES` from `transforms/common.py`. -/
def REGION_TYPES : List String := ["metro", "state", "county", "city", "zip"]

/-- `REGION_TYPE_FILTER` from `transforms/common.py`; `none` models the
Python `KeyError` on an unknown region type. -/
def REGION_TYPE_FILTER (rt : String) : Option String :=
  if rt = "metro" then some "msa"
  else if rt = "state" then some "state"
  else if rt = "county" then some "county"
  else if rt = "city" then some "city"
  else if rt = "zip" then some "zip"
  else none

/-- The melt step of `load_and_melt`: identifier columns are those whose
first character is not a digit; all other (date) columns are melted into
`(date, value)` pairs, one output row per input row per date column. -/
def melt (df : DF) (value_col : String) : DF :=
  let id_vars := df.cols.filter (fun c => !firstIsDigit c)
  let dateCols := df.cols.filter (fun c => firstIsDigit c)
  ⟨id_vars ++ ["date", value_col],
   dateCols.flatMap (fun d =>
     df.rows.map (fun r =>
       id_vars.map (fun c => cellL df.cols r c) ++ [some d, cellL df.cols r d]))⟩

/-- The `(RegionID, date)` key of a row — the merge key of `merge_variants`. -/
def key_rd (df : DF) (r : List (Option String)) : Option String × Option String :=
  (df.cell r "RegionID", df.cell r "date")

/-- The `(RegionID, date)` keys of all rows, in row order. -/
def keys_rd (df : DF) : List (Option String × Option String) :=
  df.rows.map (key_rd df)

/-- `left.merge(right, on=["RegionID", "date"], how="outer")`: every left
row is paired with each right row having an equal key (all right non-key
columns null when there is no match), and right rows with no matching left
row are appended with the left non-key columns null. -/
def outerMergeRD (L R : DF) : DF :=
  let rnk := R.cols.filter (fun c => !(c == "RegionID" || c == "date"))
  ⟨L.cols ++ rnk,
   (L.rows.flatMap (fun lr =>
      let ms := R.rows.filter (fun rr => key_rd R rr == key_rd L lr)
      if ms.isEmpty then [lr ++ rnk.map (fun _ => (none : Option String))]
      else ms.map (fun rr => lr ++ rnk.map (fun c => R.cell rr c))))
   ++ ((R.rows.filter (fun rr => L.rows.all (fun lr => !(key_rd L lr == key_rd R rr)))).map
       (fun rr =>
         L.cols.map (fun c => if c == "RegionID" || c == "date" then R.cell rr c else none)
         ++ rnk.map (fun c => R.cell rr c)))⟩

/-- `[c for c in df.columns if c in value_cols][0]` — `none` models the
`IndexError` raised when no column of `df` is a value column. -/
def chooseValueCol (df : DF) (value_cols : List String) : Option String :=
  (df.cols.filter (fun c => decide (c ∈ value_cols))).head?

/-- One iteration of the `merge_variants` loop:
`merged.merge(df[["RegionID", "date", value_col]], on=["RegionID", "date"], how="outer")`. -/
def mergeStep (acc df : DF) (v : String) : DF :=
  outerMergeRD acc (selectCols ["RegionID", "date", v] df)

/-- The merge loop of `merge_variants`, with the first frame as accumulator. -/
def mergeAux (value_cols : List String) : DF → List DF → Option DF
  | acc, [] => some acc
  | acc, df :: rest =>
    match chooseValueCol df value_cols with
    | none => none
    | some v => mergeAux value_cols (mergeStep acc df v) rest

/-- `merge_variants` from `transforms/common.py`. -/
def merge_variants (dfs : List DF) (value_cols : List String) : Option DF :=
  match dfs with
  | [] => some ⟨[], []⟩
  | d0 :: rest => mergeAux value_cols d0 rest

/-- The column-rename dictionary of `standardize_columns` (identity outside
the three renamed labels, like `DataFrame.rename`). -/
def renameMap (c : String) : String :=
  if c = "RegionID" then "region_id"
  else if c = "RegionName" then "region_name"
  else if c = "StateName" then "state_code"
  else c

/-- Row filter `df[df["RegionType"].str.lower() == region_filter]` (a null
RegionType compares unequal and is dropped); a frame without a
`RegionType` column is left unchanged. -/
def filterRegion (tag : String) (df : DF) : DF :=
  if "RegionType" ∈ df.cols then
    ⟨df.cols,
     df.rows.filter (fun r =>
       match df.cell r "RegionType" with
       | some s => pyLower s == tag
       | none => false)⟩
  else df

/-- Column rename step of `standardize_columns`. -/
def stdRename (df : DF) : DF := ⟨df.cols.map renameMap, df.rows⟩

/-- The `state_code` step: dropped for the "state" granularity, otherwise
nulls become the empty string (`fillna("").astype(str)`). -/
def stdState (region_type : String) (df : DF) : DF :=
  if "state_code" ∈ df.cols then
    (if region_type = "state" then dropCols ["state_code"] df
     else mapCol "state_code" (fun x => some (x.getD "")) df)
  else df

/-- The date-reformat step; `fmt` models `pd.to_datetime(...).strftime("%Y-%m-%d")`. -/
def stdDate (fmt : String → String) (df : DF) : DF :=
  mapCol "date" (fun x => x.map fmt) df

/-- The `pd.to_numeric(errors="coerce")` step over the value columns that
are present; `toNum` models numeric parsing, `none` being the coercion of
a non-numeric cell to null. -/
def stdNumeric (toNum : String → Option String) (value_cols : List String) (df : DF) : DF :=
  value_cols.foldl
    (fun acc c => if c ∈ acc.cols then mapCol c (fun x => x.bind toNum) acc else acc) df

/-- `dropna(subset=existing_value_cols, how="all")`: keep the rows with at
least one non-null value cell (skipped when no value column is present). -/
def stdDropNa (value_cols : List String) (df : DF) : DF :=
  let existing := value_cols.filter (fun c => decide (c ∈ df.cols))
  if existing.isEmpty then df
  else ⟨df.cols, df.rows.filter (fun r => existing.any (fun c => (df.cell r c).isSome))⟩

/-- Row order of `sort_values(["date", "region_name"])` with nulls last. -/
def optLE (a b : Option String) : Bool :=
  match a, b with
  | none, none => true
  | some _, none => true
  | none, some _ => false
  | some x, some y => strLE x y

/-- Strict version of `optLE`. -/
def optLT (a b : Option String) : Bool :=
  match a, b with
  | none, _ => false
  | some _, none => true
  | some x, some y => strLT x y

/-- Comparison of two rows by `(date, region_name)`. -/
def rowLE (df : DF) (r1 r2 : List (Option String)) : Bool :=
  optLT (df.cell r1 "date") (df.cell r2 "date")
  || (df.cell r1 "date" == df.cell r2 "date"
      && optLE (df.cell r1 "region_name") (df.cell r2 "region_name"))

/-- `sort_values(["date", "region_name"]).reset_index(drop=True)`. -/
def stdSort (df : DF) : DF := ⟨df.cols, sortLE (rowLE df) df.rows⟩

/-- `standardize_columns` from `transforms/common.py`: filter to the
granularity's RegionType tag, return early when empty, rename identifier
columns, drop SizeRank/RegionType, handle state_code, reformat dates,
coerce value columns to numeric, drop all-null-value rows, and sort. -/
def standardize_columns (fmt : String → String) (toNum : String → Option String)
    (region_type : String) (value_cols : List String) (df : DF) : Option DF :=
  match REGION_TYPE_FILTER region_type with
  | none => none
  | some tag =>
    let df1 := filterRegion tag df
    if df1.rows.isEmpty then some df1
    else some (stdSort (stdDropNa value_cols (stdNumeric toNum value_cols
      (stdDate fmt (stdState region_type
        (dropCols ["SizeRank", "RegionType"] (stdRename df1)))))))

/-- The `(date, region_id)` key of a row of a standardized table. -/
def key_out (df : DF) (r : List (Option String)) : Option String × Option String :=
  (df.cell r "date", df.cell r "region_id")

/-- The `(date, region_id)` keys of all rows, in row order. -/
def keys_out (df : DF) : List (Option String × Option String) :=
  df.rows.map (key_out df)

/-! ### ingest/zillow_data.py -/

/-- One entry of the `DATASETS` dict: metric id, folder, filename pattern
(with a `{region}` placeholder) and description. -/
structure DatasetCfg where
  id : String
  folder : String
  pattern : String
  description : String
deriving DecidableEq

/-- The `DATASETS` catalog of `ingest/zillow_data.py`. -/
def DATASETS : List DatasetCfg := [
  ⟨"zhvi_all_homes", "zhvi", "{region}_zhvi_uc_sfrcondo_tier_0.33_0.67_sm_sa_month.csv",
    "ZHVI All Homes (SFR + Condo) - Mid Tier"⟩,
  ⟨"zhvi_sfr", "zhvi", "{region}_zhvi_uc_sfr_tier_0.33_0.67_sm_sa_month.csv",
    "ZHVI Single Family Residence - Mid Tier"⟩,
  ⟨"zhvi_condo", "zhvi", "{region}_zhvi_uc_condo_tier_0.33_0.67_sm_sa_month.csv",
    "ZHVI Condo/Co-op - Mid Tier"⟩,
  ⟨"zhvi_1bed", "zhvi", "{region}_zhvi_bdrmcnt_1_uc_sfrcondo_tier_0.33_0.67_sm_sa_month.csv",
    "ZHVI 1 Bedroom"⟩,
  ⟨"zhvi_2bed", "zhvi", "{region}_zhvi_bdrmcnt_2_uc_sfrcondo_tier_0.33_0.67_sm_sa_month.csv",
    "ZHVI 2 Bedroom"⟩,
  ⟨"zhvi_3bed", "zhvi", "{region}_zhvi_bdrmcnt_3_uc_sfrcondo_tier_0.33_0.67_sm_sa_month.csv",
    "ZHVI 3 Bedroom"⟩,
  ⟨"zhvi_4bed", "zhvi", "{region}_zhvi_bdrmcnt_4_uc_sfrcondo_tier_0.33_0.67_sm_sa_month.csv",
    "ZHVI 4 Bedroom"⟩,
  ⟨"zhvi_5bed_plus", "zhvi", "{region}_zhvi_bdrmcnt_5_uc_sfrcondo_tier_0.33_0.67_sm_sa_month.csv",
    "ZHVI 5+ Bedroom"⟩,
  ⟨"zhvi_bottom_tier", "zhvi", "{region}_zhvi_uc_sfrcondo_tier_0.0_0.33_sm_sa_month.csv",
    "ZHVI Bottom Tier (5th-35th percentile)"⟩,
  ⟨"zhvi_top_tier", "zhvi", "{region}_zhvi_uc_sfrcondo_tier_0.67_1.0_sm_sa_month.csv",
    "ZHVI Top Tier (65th-95th percentile)"⟩,
  ⟨"zori", "zori", "{region}_zori_uc_sfrcondomfr_sm_sa_month.csv",
    "ZORI Observed Rent Index"⟩,
  ⟨"inventory_for_sale", "invt_fs", "{region}_invt_fs_uc_sfrcondo_sm_month.csv",
    "For-Sale Inventory"⟩,
  ⟨"new_listings", "new_listings", "{region}_new_listings_uc_sfrcondo_sm_month.csv",
    "New Listings Count"⟩,
  ⟨"new_pending", "new_pending", "{region}_new_pending_uc_sfrcondo_sm_month.csv",
    "New Pending Sales"⟩,
  ⟨"median_list_price", "mlp", "{region}_mlp_uc_sfrcondo_sm_month.csv",
    "Median List Price"⟩,
  ⟨"median_sale_price", "median_sale_price", "{region}_median_sale_price_uc_sfrcondo_sm_sa_month.csv",
    "Median Sale Price"⟩,
  ⟨"sales_count", "sales_count_now", "{region}_sales_count_now_uc_sfrcondo_month.csv",
    "Sales Count Nowcast"⟩,
  ⟨"pct_sold_above_list", "pct_sold_above_list", "{region}_pct_sold_above_list_uc_sfrcondo_sm_month.csv",
    "Percent Sold Above List Price"⟩,
  ⟨"pct_sold_below_list", "pct_sold_below_list", "{region}_pct_sold_below_list_uc_sfrcondo_sm_month.csv",
    "Percent Sold Below List Price"⟩,
  ⟨"days_to_pending", "mean_doz_pending", "{region}_mean_doz_pending_uc_sfrcondo_sm_month.csv",
    "Mean Days to Pending"⟩,
  ⟨"price_cut_share", "perc_listings_price_cut", "{region}_perc_listings_price_cut_uc_sfrcondo_sm_month.csv",
    "Percent of Listings with Price Cut"⟩]

/-- `REGION_TYPES` from `ingest/zillow_data.py` (capitalised file tokens). -/
def INGEST_REGION_TYPES : List String := ["Metro", "State", "County", "City", "Zip"]

/-- `BASE_URL` from `ingest/zillow_data.py`. -/
def BASE_URL : String := "https://files.zillowstatic.com/research/public_csvs"

/-- The completion key `f"{dataset_id}_{region.lower()}"`. -/
def downloadKey (datasetId region : String) : String :=
  datasetId ++ "_" ++ pyLower region

/-- The `downloads` work list built by `run()`: the catalog × region-type
cross-product minus the pairs whose key is in the completed set. -/
def downloadsFor (completed : List String) : List (DatasetCfg × String) :=
  DATASETS.flatMap (fun d =>
    INGEST_REGION_TYPES.filterMap (fun region =>
      if downloadKey d.id region ∈ completed then none else some (d, region)))

/-- URL built for one download:
`f"{BASE_URL}/{config['folder']}/{pattern.format(region=region)}"`. -/
def fetchURL (d : DatasetCfg) (region : String) : String :=
  BASE_URL ++ "/" ++ d.folder ++ "/" ++ (d.pattern.replace "{region}" region)

/-- The URLs `run()` passes to the HTTP `get`, one per work-list item (each
item performs exactly one `get` call, whether or not it later fails). -/
def ingestFetchURLs (completed : List String) : List String :=
  (downloadsFor completed).map (fun p => fetchURL p.1 p.2)

/-! ### subsets_utils/io.py — upload_data -/

/-- Table-store effects performed by `upload_data`. -/
inductive TableAct where
  | readTable (name : String)
  | mergeUpsert (name mergeKey : String)
  | createTable (name : String)
  | writeTable (name mode : String)
deriving DecidableEq

/-- `upload_data`, as a trace semantics: either the `ValueError` raised by
a guard (with no table I/O performed), or the list of table-store effects
executed.  `dataLen` is `len(data)`, `tableExists` tells whether the Delta
table already exists (in cloud mode, whether opening it succeeds);
`mergeKey = none` is an absent argument and `some ""` an empty one, both
falsy in the Python guard `not merge_key`. -/
def upload_data (dataLen : Nat) (datasetName : String) (mode : String)
    (mergeKey : Option String) (cloudMode : Bool) (tableExists : Bool) :
    Except String (List TableAct) :=
  if ¬ (mode = "append" ∨ mode = "overwrite" ∨ mode = "merge") then
    Except.error ("Invalid mode '" ++ mode ++ "'. Must be 'append', 'overwrite', or 'merge'.")
  else if mode = "merge" ∧ mergeKey.getD "" = "" then
    Except.error "merge_key is required when mode='merge'"
  else if dataLen = 0 then
    Except.ok []
  else if cloudMode then
    (if mode = "merge" then
      (if tableExists then
        Except.ok [TableAct.readTable datasetName,
                   TableAct.mergeUpsert datasetName (mergeKey.getD "")]
       else Except.ok [TableAct.createTable datasetName])
     else Except.ok [TableAct.writeTable datasetName mode])
  else
    (if mode = "merge" then
      (if tableExists then
        Except.ok [TableAct.readTable datasetName,
                   TableAct.mergeUpsert datasetName (mergeKey.getD "")]
       else Except.ok [TableAct.createTable datasetName])
     else Except.ok [TableAct.writeTable datasetName mode])

/-! ### subsets_utils/http_client.py — CachedClient -/

/-- An HTTP response (status plus raw body). -/
structure HTTPResp where
  status : Nat
  body : String
deriving DecidableEq

/-- Order on query parameters used by `sorted(params.items())`. -/
def pairLE (a b : String × String) : Bool :=
  strLT a.1 b.1 || (a.1 == b.1 && strLE a.2 b.2)

/-- The cache key `(method, url, sorted(params))` of `_cache_key`; the md5
digest of the source is treated as injective, so the key is modelled by
the hashed tuple itself. -/
def cache_key (method url : String) (params : List (String × String)) :
    String × String × List (String × String) :=
  (method, url, sortLE pairLE params)

/-- The on-disk cache of `CacheManager`, newest entry first. -/
abbrev Cache : Type := List ((String × String × List (String × String)) × HTTPResp)

/-- `CacheManager.get`: stored response for the key, if the files exist. -/
def cache_get (c : Cache) (k : String × String × List (String × String)) : Option HTTPResp :=
  ((List.find? (fun e => e.1 == k) c).map (fun e => e.2))

/-- `CacheManager.save`: stores content and metadata for the key. -/
def cache_save (c : Cache) (k : String × String × List (String × String)) (r : HTTPResp) : Cache :=
  List.cons (k, r) c

/-- `CachedClient.request`: returns the response, the cache afterwards, and
the number of real network requests made.  `net` is the response the wire
would produce for this request. -/
def request (cacheEnabled : Bool) (cache : Cache) (method url : String)
    (params : List (String × String)) (net : HTTPResp) :
    HTTPResp × Cache × Nat :=
  if cacheEnabled then
    match cache_get cache (cache_key method url params) with
    | some r => (r, cache, 0)
    | none =>
      (net,
       (if net.status < 400 then cache_save cache (cache_key method url params) net else cache),
       1)
  else (net, cache, 1)

/-! ### subsets_utils/testing.py — validate -/

/-- One column of a PyArrow table: name, type string, values. -/
structure PCol where
  name : String
  dtype : String
  values : List (Option String)
deriving DecidableEq

/-- A PyArrow table. -/
structure PTable where
  cols : List PCol
deriving DecidableEq

/-- `len(table)` — the number of rows. -/
def PTable.numRows (t : PTable) : Nat :=
  match t.cols with
  | [] => 0
  | c :: _ => c.values.length

/-- `table.column_names`. -/
def PTable.columnNames (t : PTable) : List String := t.cols.map (fun c => c.name)

/-- Lookup of a column by name. -/
def PTable.findCol (t : PTable) (c : String) : Option PCol :=
  List.find? (fun e => e.name == c) t.cols

/-- `str(table.schema.field(c).type)`. -/
def PTable.fieldType (t : PTable) (c : String) : String :=
  ((t.findCol c).map (fun e => e.dtype)).getD ""

/-- `table.column(c).to_pylist()`. -/
def PTable.column (t : PTable) (c : String) : List (Option String) :=
  ((t.findCol c).map (fun e => e.values)).getD []

/-- `table.column(c).null_count`. -/
def PTable.nullCount (t : PTable) (c : String) : Nat :=
  (t.column c).countP (fun v => v.isNone)

/-- `b` is a contiguous run of `a` starting at the head. -/
def leadMatch : List Char → List Char → Bool
  | [], _ => true
  | _ :: _, [] => false
  | a :: as, b :: bs => a == b && leadMatch as bs

/-- `needle in haystack` on strings (Python `in`). -/
def subMatch (n : List Char) : List Char → Bool
  | [] => leadMatch n []
  | b :: hs => leadMatch n (b :: hs) || subMatch n hs

/-- Structured `AssertionError` messages raised by `validate`. -/
inductive VErr where
  | minRows (expected got : Nat)
  | maxRows (expected got : Nat)
  | missingColumn (c : String)
  | columnType (c expected actual : String)
  | notNull (c : String) (count : Nat)
  | dupValues (c : String) (count : Nat)
  | dupCombos (cs : List String) (count : Nat)
deriving DecidableEq

/-- The `unique` schema entry may be a single column name or a list. -/
inductive USpec where
  | str (s : String)
  | list (l : List String)
deriving DecidableEq

/-- The validation schema dict; `none` is an absent key. -/
structure VSchema where
  columns : Option (List (String × String)) := none
  not_null : Option (List String) := none
  unique : Option USpec := none
  min_rows : Option Nat := none
  max_rows : Option Nat := none
deriving DecidableEq

/-- `if min_rows := schema.get("min_rows"): assert len(table) >= min_rows`.
A configured value of 0 is falsy in Python and skips the check. -/
def checkMinRows (t : PTable) (s : VSchema) : Except VErr Unit :=
  match s.min_rows with
  | none => Except.ok ()
  | some n =>
    if n ≠ 0 then
      (if t.numRows ≥ n then Except.ok () else Except.error (VErr.minRows n t.numRows))
    else Except.ok ()

/-- `if max_rows := schema.get("max_rows"): assert len(table) <= max_rows`. -/
def checkMaxRows (t : PTable) (s : VSchema) : Except VErr Unit :=
  match s.max_rows with
  | none => Except.ok ()
  | some n =>
    if n ≠ 0 then
      (if t.numRows ≤ n then Except.ok () else Except.error (VErr.maxRows n t.numRows))
    else Except.ok ()

/-- Column presence and type-substring checks, in dict order. -/
def checkColumnsList (t : PTable) : List (String × String) → Except VErr Unit
  | [] => Except.ok ()
  | (c, ty) :: rest =>
    if c ∈ t.columnNames then
      (if subMatch ty.data (t.fieldType c).data then checkColumnsList t rest
       else Except.error (VErr.columnType c ty (t.fieldType c)))
    else Except.error (VErr.missingColumn c)

/-- `if columns := schema.get("columns"): ...` (an empty dict is falsy). -/
def checkColumns (t : PTable) (s : VSchema) : Except VErr Unit :=
  match s.columns with
  | none => Except.ok ()
  | some cols => if cols ≠ [] then checkColumnsList t cols else Except.ok ()

/-- Null-count checks, in list order. -/
def checkNotNullList (t : PTable) : List String → Except VErr Unit
  | [] => Except.ok ()
  | c :: rest =>
    if t.nullCount c = 0 then checkNotNullList t rest
    else Except.error (VErr.notNull c (t.nullCount c))

/-- `if not_null := schema.get("not_null"): ...`. -/
def checkNotNull (t : PTable) (s : VSchema) : Except VErr Unit :=
  match s.not_null with
  | none => Except.ok ()
  | some l => if l ≠ [] then checkNotNullList t l else Except.ok ()

/-- Python `zip(*lists)` of the column value lists (truncates to the
shortest list, exactly like `zip`). -/
def zipN {α : Type} : List (List α) → List (List α)
  | [] => []
  | [l] => l.map (fun a => [a])
  | l :: ls => List.zipWith (fun a r => a :: r) l (zipN ls)

/-- The uniqueness check proper: single-column duplicate count, or the
composite-key duplicate count over zipped rows; `len(values) - len(set(values))`. -/
def uniqueCheck (t : PTable) (l : List String) : Except VErr Unit :=
  if l.length = 1 then
    let c := l.headD ""
    let values := t.column c
    let dups := values.length - values.dedup.length
    (if dups = 0 then Except.ok () else Except.error (VErr.dupValues c dups))
  else
    let rows := zipN (l.map (fun c => t.column c))
    let dups := rows.length - rows.dedup.length
    (if dups = 0 then Except.ok () else Except.error (VErr.dupCombos l dups))

/-- `if unique := schema.get("unique"): ...` — a bare string is wrapped
into a one-element list; empty string and empty list are falsy. -/
def checkUnique (t : PTable) (s : VSchema) : Except VErr Unit :=
  match s.unique with
  | none => Except.ok ()
  | some (USpec.str c) => if c ≠ "" then uniqueCheck t [c] else Except.ok ()
  | some (USpec.list l) => if l ≠ [] then uniqueCheck t l else Except.ok ()

/-- `validate(table, schema)` from `subsets_utils/testing.py`: row-count
bounds, then column existence/type, then not-null, then uniqueness; the
first failing assertion is raised. -/
def validate (t : PTable) (s : VSchema) : Except VErr Unit := do
  checkMinRows t s
  checkMaxRows t s
  checkColumns t s
  checkNotNull t s
  checkUnique t s

/-- The schema `{"min_rows": n}`. -/
def schemaMin (n : Nat) : VSchema := ⟨none, none, none, some n, none⟩

/-- The schema `{"max_rows": n}`. -/
def schemaMax (n : Nat) : VSchema := ⟨none, none, none, none, some n⟩

/-- The schema `{"unique": ["date", "region_id"]}`. -/
def schemaUniqueDateRegion : VSchema :=
  ⟨none, none, some (USpec.list ["date", "region_id"]), none, none⟩

/-- A state document's completed set covering the full catalog × region
cross-product. -/
def allCompletedKeys : List String :=
  DATASETS.flatMap (fun d => INGEST_REGION_TYPES.map (fun r => downloadKey d.id r))

/-! ## Theorems -/

/-! ### Generic list lemmas -/

theorem dedup_length_eq_iff {α : Type} [DecidableEq α] (l : List α) :
    l.dedup.length = l.length ↔ l.Nodup := by
  constructor
  · intro h
    have hs : l.dedup.Sublist l := List.dedup_sublist l
    have he : l.dedup = l := hs.eq_of_length h
    rw [← he]
    exact l.nodup_dedup
  · intro h
    rw [List.dedup_eq_self.2 h]

theorem dedup_length_le {α : Type} [DecidableEq α] (l : List α) :
    l.dedup.length ≤ l.length :=
  (List.dedup_sublist l).length_le

theorem dup_count_pos_iff {α : Type} [DecidableEq α] (l : List α) :
    0 < l.length - l.dedup.length ↔ ¬ l.Nodup := by
  rw [← dedup_length_eq_iff]
  have := dedup_length_le l
  omega

/-! ### C3 — melt row count -/

theorem length_flatMap_const {α β : Type} (l : List α) (f : α → List β) (n : Nat)
    (h : ∀ a ∈ l, (f a).length = n) : (l.flatMap f).length = l.length * n := by
  induction l with
  | nil => simp
  | cons a as ih =>
    simp only [List.flatMap_cons, List.length_append, List.length_cons]
    rw [h a (by simp), ih (fun a' ha' => h a' (by simp [ha']))]
    ring

/-- C3: melting a wide frame with `n` rows and `k` digit-led (date)
columns produces exactly `n × k` long rows, one row per original row per
date column, before any filtering. -/
theorem melt_row_count (df : DF) (value_col : String) :
    ((melt df value_col).rows).length
      = df.rows.length * (df.cols.filter (fun c => firstIsDigit c)).length := by
  dsimp only [melt]
  rw [length_flatMap_const _ _ df.rows.length (fun d _ => by simp)]
  exact Nat.mul_comm _ _

/-! ### C5 — upload_data merge-mode guard -/

/-- C5: calling `upload_data` with `mode="merge"` and no `merge_key`
raises the `ValueError` before any table I/O: the result is the error with
an empty effect trace, for every data length, dataset name, backend mode
and table-existence state. -/
theorem upload_merge_requires_merge_key (dataLen : Nat) (name : String)
    (cloudMode tableExists : Bool) :
    upload_data dataLen name "merge" none cloudMode tableExists
      = Except.error "merge_key is required when mode='merge'" := by
  simp [upload_data]

/-! ### C10 — zero-valued row bounds are skipped -/

/-- C10: `validate` only enforces truthy row bounds: a configured
`max_rows` of 0 never raises (regardless of the table's size), and a
configured `min_rows` of 0 performs no minimum-row check. -/
theorem validate_zero_row_bounds_skipped (t : PTable) :
    validate t (schemaMax 0) = Except.ok () ∧ validate t (schemaMin 0) = Except.ok () :=
  ⟨rfl, rfl⟩

/-! ### C8 — min_rows boundary -/

/-- C8: `validate(table, {"min_rows": 100})` raises exactly when the table
has fewer than 100 rows, and passes at exactly 100 rows. -/
theorem validate_min_rows_100 (t : PTable) :
    (t.numRows < 100 →
      validate t (schemaMin 100) = Except.error (VErr.minRows 100 t.numRows)) ∧
    (t.numRows = 100 → validate t (schemaMin 100) = Except.ok ()) := by
  constructor
  · intro h
    have hmin : checkMinRows t (schemaMin 100) = Except.error (VErr.minRows 100 t.numRows) := by
      have hlt : ¬ t.numRows ≥ 100 := by omega
      simp [checkMinRows, schemaMin, hlt]
    unfold validate
    rw [hmin]
    rfl
  · intro h
    have hmin : checkMinRows t (schemaMin 100) = Except.ok () := by
      have hge : t.numRows ≥ 100 := by omega
      simp [checkMinRows, schemaMin, hge]
    unfold validate
    rw [hmin]
    rfl

theorem validate_min_rows_100_witness :
    ((PTable.mk []).numRows < 100 ∧
      validate (PTable.mk []) (schemaMin 100) = Except.error (VErr.minRows 100 0)) ∧
    ((PTable.mk [⟨"v", "double", List.replicate 100 (some "1")⟩]).numRows = 100 ∧
      validate (PTable.mk [⟨"v", "double", List.replicate 100 (some "1")⟩]) (schemaMin 100)
        = Except.ok ()) :=
  ⟨⟨by decide, (validate_min_rows_100 (PTable.mk [])).1 (by decide)⟩,
   ⟨by decide,
    (validate_min_rows_100 (PTable.mk [⟨"v", "double", List.replicate 100 (some "1")⟩])).2
      (by decide)⟩⟩

/-! ### C9 — composite uniqueness check -/

/-- C9: on a table with `date` and `region_id` columns,
`validate(table, {"unique": ["date", "region_id"]})` raises with a
positive duplicate count when two rows share a `(date, region_id)` pair
(i.e. when the zipped key rows are not pairwise distinct), and passes when
all pairs are distinct. -/
theorem validate_unique_date_region (t : PTable)
    (h1 : (t.findCol "date").isSome) (h2 : (t.findCol "region_id").isSome) :
    (¬ (zipN [t.column "date", t.column "region_id"]).Nodup →
      0 < (zipN [t.column "date", t.column "region_id"]).length
            - (zipN [t.column "date", t.column "region_id"]).dedup.length ∧
      validate t schemaUniqueDateRegion
        = Except.error (VErr.dupCombos ["date", "region_id"]
            ((zipN [t.column "date", t.column "region_id"]).length
              - (zipN [t.column "date", t.column "region_id"]).dedup.length))) ∧
    ((zipN [t.column "date", t.column "region_id"]).Nodup →
      validate t schemaUniqueDateRegion = Except.ok ()) := by
  have hrows : ([t.column "date", t.column "region_id"] : List (List (Option String)))
      = ["date", "region_id"].map (fun c => t.column c) := by simp
  constructor
  · intro h
    have hpos := (dup_count_pos_iff (zipN [t.column "date", t.column "region_id"])).2 h
    refine ⟨hpos, ?_⟩
    have hu : checkUnique t schemaUniqueDateRegion
        = Except.error (VErr.dupCombos ["date", "region_id"]
            ((zipN [t.column "date", t.column "region_id"]).length
              - (zipN [t.column "date", t.column "region_id"]).dedup.length)) := by
      have hne : (zipN [t.column "date", t.column "region_id"]).length
          - (zipN [t.column "date", t.column "region_id"]).dedup.length ≠ 0 := by omega
      simp [checkUnique, schemaUniqueDateRegion, uniqueCheck, ← hrows, hne]
    show (do
      checkMinRows t schemaUniqueDateRegion
      checkMaxRows t schemaUniqueDateRegion
      checkColumns t schemaUniqueDateRegion
      checkNotNull t schemaUniqueDateRegion
      checkUnique t schemaUniqueDateRegion) = _
    rw [show checkMinRows t schemaUniqueDateRegion = Except.ok () from rfl]
    rw [show checkMaxRows t schemaUniqueDateRegion = Except.ok () from rfl]
    rw [show checkColumns t schemaUniqueDateRegion = Except.ok () from rfl]
    rw [show checkNotNull t schemaUniqueDateRegion = Except.ok () from rfl]
    rw [hu]
    rfl
  · intro h
    have hz : (zipN [t.column "date", t.column "region_id"]).length
        - (zipN [t.column "date", t.column "region_id"]).dedup.length = 0 := by
      have := (dedup_length_eq_iff (zipN [t.column "date", t.column "region_id"])).2 h
      omega
    have hu : checkUnique t schemaUniqueDateRegion = Except.ok () := by
      simp [checkUnique, schemaUniqueDateRegion, uniqueCheck, ← hrows, hz]
    show (do
      checkMinRows t schemaUniqueDateRegion
      checkMaxRows t schemaUniqueDateRegion
      checkColumns t schemaUniqueDateRegion
      checkNotNull t schemaUniqueDateRegion
      checkUnique t schemaUniqueDateRegion) = _
    rw [show checkMinRows t schemaUniqueDateRegion = Except.ok () from rfl]
    rw [show checkMaxRows t schemaUniqueDateRegion = Except.ok () from rfl]
    rw [show checkColumns t schemaUniqueDateRegion = Except.ok () from rfl]
    rw [show checkNotNull t schemaUniqueDateRegion = Except.ok () from rfl]
    rw [hu]
    rfl

theorem validate_unique_date_region_witness :
    (validate (PTable.mk [⟨"date", "string", [some "d", some "d"]⟩,
                          ⟨"region_id", "int64", [some "1", some "1"]⟩])
        schemaUniqueDateRegion
      = Except.error (VErr.dupCombos ["date", "region_id"] 1)) ∧
    (validate (PTable.mk [⟨"date", "string", [some "d", some "d"]⟩,
                          ⟨"region_id", "int64", [some "1", some "2"]⟩])
        schemaUniqueDateRegion
      = Except.ok ()) :=
  ⟨((validate_unique_date_region
      (PTable.mk [⟨"date", "string", [some "d", some "d"]⟩,
                  ⟨"region_id", "int64", [some "1", some "1"]⟩])
      (by decide) (by decide)).1 (by decide)).2,
   (validate_unique_date_region
      (PTable.mk [⟨"date", "string", [some "d", some "d"]⟩,
                  ⟨"region_id", "int64", [some "1", some "2"]⟩])
      (by decide) (by decide)).2 (by decide)⟩

/-! ### C4 — ingest idempotence -/

/-- C4: when the state document's completed set already contains the key
`"{dataset_id}_{region.lower()}"` for every catalog entry and region type,
the ingest work list is empty, so `run()` performs zero HTTP `get` calls. -/
theorem ingest_no_fetches_when_complete (completed : List String)
    (h : ∀ d ∈ DATASETS, ∀ region ∈ INGEST_REGION_TYPES,
      downloadKey d.id region ∈ completed) :
    ingestFetchURLs completed = [] := by
  unfold ingestFetchURLs
  have hd : downloadsFor completed = [] := by
    unfold downloadsFor
    rw [List.flatMap_eq_nil_iff]
    intro d hdm
    rw [List.filterMap_eq_nil_iff]
    intro region hr
    simp [h d hdm region hr]
  rw [hd]
  rfl

theorem ingest_no_fetches_when_complete_witness :
    ingestFetchURLs allCompletedKeys = [] :=
  ingest_no_fetches_when_complete allCompletedKeys
    (fun d hd region hr =>
      List.mem_flatMap.2 ⟨d, hd, List.mem_map.2 ⟨region, hr, rfl⟩⟩)

/-! ### C6 — caching HTTP client -/

/-- C6: with caching enabled, `CachedClient.request` returns the stored
response on a cache hit with zero network calls and an unchanged cache;
on a miss it performs exactly one real request, returns the wire response,
and stores it in the cache if and only if its status code is < 400. -/
theorem cached_request_correct (cache : Cache) (method url : String)
    (params : List (String × String)) (net : HTTPResp) :
    (∀ r, cache_get cache (cache_key method url params) = some r →
      request true cache method url params net = (r, cache, 0)) ∧
    (cache_get cache (cache_key method url params) = none →
      (request true cache method url params net).1 = net ∧
      (request true cache method url params net).2.2 = 1 ∧
      (cache_get (request true cache method url params net).2.1 (cache_key method url params)
          = some net ↔ net.status < 400) ∧
      (¬ net.status < 400 → (request true cache method url params net).2.1 = cache)) := by
  constructor
  · intro r h
    simp [request, h]
  · intro h
    by_cases hs : net.status < 400
    · have hreq : request true cache method url params net
          = (net, cache_save cache (cache_key method url params) net, 1) := by
        simp [request, h, hs]
      refine ⟨by rw [hreq], by rw [hreq], ?_, fun hns => absurd hs hns⟩
      rw [hreq]
      have hfind : List.find? (fun e => e.1 == cache_key method url params)
          ((cache_key method url params, net) :: cache)
          = some (cache_key method url params, net) :=
        List.find?_cons_of_pos _ (by simp)
      simp [cache_get, cache_save, hfind, hs]
    · have hreq : request true cache method url params net = (net, cache, 1) := by
        simp [request, h, hs]
      refine ⟨by rw [hreq], by rw [hreq], ?_, fun _ => by rw [hreq]⟩
      rw [hreq]
      simp [h, hs]

theorem cached_request_correct_witness :
    (request true [(cache_key "GET" "u" [], ⟨200, "hit"⟩)] "GET" "u" [] ⟨200, "net"⟩
      = (⟨200, "hit"⟩, [(cache_key "GET" "u" [], ⟨200, "hit"⟩)], 0)) ∧
    ((request true [] "GET" "u" [] ⟨200, "net"⟩).2.2 = 1 ∧
      (cache_get (request true [] "GET" "u" [] ⟨200, "net"⟩).2.1 (cache_key "GET" "u" [])
        = some ⟨200, "net"⟩)) :=
  ⟨(cached_request_correct [(cache_key "GET" "u" [], ⟨200, "hit"⟩)] "GET" "u" []
      ⟨200, "net"⟩).1 ⟨200, "hit"⟩ (by decide),
   ⟨((cached_request_correct [] "GET" "u" [] ⟨200, "net"⟩).2 (by decide)).2.1,
    (((cached_request_correct [] "GET" "u" [] ⟨200, "net"⟩).2 (by decide)).2.2.1).2
      (by decide)⟩⟩

/-! ### DataFrame base lemmas -/

theorem colIdx_eq_none_iff (cols : List String) (c : String) :
    colIdx cols c = none ↔ c ∉ cols := by
  induction cols with
  | nil => simp [colIdx]
  | cons x xs ih =>
    by_cases hx : x = c
    · simp [colIdx, hx]
    · simp [colIdx, hx, ih, Ne.symm hx]

theorem colIdx_isSome_of_mem {cols : List String} {c : String} (h : c ∈ cols) :
    (colIdx cols c).isSome := by
  cases hc : colIdx cols c with
  | none => exact absurd ((colIdx_eq_none_iff cols c).1 hc) (by simp [h])
  | some i => rfl

theorem colIdx_lt_length {cols : List String} {c : String} {i : Nat}
    (h : colIdx cols c = some i) : i < cols.length := by
  induction cols generalizing i with
  | nil => simp [colIdx] at h
  | cons x xs ih =>
    by_cases hx : x = c
    · simp [colIdx, hx] at h
      simp [List.length_cons]
      omega
    · simp only [colIdx, hx, if_false] at h
      obtain ⟨j, hj, rfl⟩ := Option.map_eq_some'.1 h
      have := ih hj
      simp
      omega

theorem colIdx_getD {cols : List String} {c : String} {i : Nat} (d : String)
    (h : colIdx cols c = some i) : cols.getD i d = c := by
  induction cols generalizing i with
  | nil => simp [colIdx] at h
  | cons x xs ih =>
    by_cases hx : x = c
    · simp [colIdx, hx] at h
      subst h
      simpa using hx
    · simp only [colIdx, hx, if_false] at h
      obtain ⟨j, hj, rfl⟩ := Option.map_eq_some'.1 h
      simpa using ih hj

theorem colIdx_append_of_mem {xs : List String} {c : String} (ys : List String)
    (h : c ∈ xs) : colIdx (xs ++ ys) c = colIdx xs c := by
  induction xs with
  | nil => cases h
  | cons x xs ih =>
    by_cases hx : x = c
    · simp [colIdx, hx]
    · have hmem : c ∈ xs := by
        cases h with
        | head => exact absurd rfl hx
        | tail _ h' => exact h'
      simp [colIdx, hx, ih hmem]

theorem colIdx_append_of_not_mem {xs : List String} {c : String} (ys : List String)
    (h : c ∉ xs) : colIdx (xs ++ ys) c = (colIdx ys c).map (xs.length + ·) := by
  induction xs with
  | nil => simp
  | cons x xs ih =>
    have hx : x ≠ c := fun he => h (by simp [he])
    have hmem : c ∉ xs := fun hm => h (by simp [hm])
    rw [List.cons_append]
    simp only [colIdx, hx, if_false, ih hmem, List.length_cons]
    cases colIdx ys c with
    | none => rfl
    | some j =>
      simp only [Option.map_some']
      congr 1
      omega

theorem getD_map_of_lt {α β : Type} (f : α → β) (l : List α) (i : Nat)
    (h : i < l.length) (d : β) (e : α) : (l.map f).getD i d = f (l.getD i e) := by
  rw [List.getD_eq_getElem?_getD, List.getD_eq_getElem?_getD, List.getElem?_map,
    List.getElem?_eq_getElem h]
  rfl

theorem getD_set_self (l : List (Option String)) (i : Nat) (a d : Option String)
    (h : i < l.length) : (l.set i a).getD i d = a := by
  rw [List.getD_eq_getElem?_getD, List.getElem?_set_self h]
  rfl

theorem getD_set_ne (l : List (Option String)) (i j : Nat) (a d : Option String)
    (h : i ≠ j) : (l.set i a).getD j d = l.getD j d := by
  rw [List.getD_eq_getElem?_getD, List.getElem?_set_ne h, ← List.getD_eq_getElem?_getD]

theorem cellL_not_mem {cols : List String} {c : String} (r : List (Option String))
    (h : c ∉ cols) : cellL cols r c = none := by
  unfold cellL
  rw [(colIdx_eq_none_iff cols c).2 h]

theorem cellL_append_left {xs : List String} {c : String} (ys : List String)
    {r1 r2 : List (Option String)} (h : c ∈ xs) (hlen : r1.length = xs.length) :
    cellL (xs ++ ys) (r1 ++ r2) c = cellL xs r1 c := by
  unfold cellL
  rw [colIdx_append_of_mem ys h]
  cases hc : colIdx xs c with
  | none => rfl
  | some i =>
    have hi : i < r1.length := hlen ▸ colIdx_lt_length hc
    exact List.getD_append _ _ _ _ hi

theorem cellL_append_right {xs : List String} {c : String} (ys : List String)
    {r1 r2 : List (Option String)} (h : c ∉ xs) (hlen : r1.length = xs.length) :
    cellL (xs ++ ys) (r1 ++ r2) c = cellL ys r2 c := by
  unfold cellL
  rw [colIdx_append_of_not_mem ys h]
  cases hc : colIdx ys c with
  | none => rfl
  | some i =>
    simp only [Option.map_some']
    rw [List.getD_append_right _ _ _ _ (by omega)]
    congr 1
    omega

theorem cellL_map_cols {cols : List String} {c : String}
    (g : String → Option String) (h : c ∈ cols) :
    cellL cols (cols.map g) c = g c := by
  unfold cellL
  cases hc : colIdx cols c with
  | none => exact absurd ((colIdx_eq_none_iff cols c).1 hc) (by simp [h])
  | some i =>
    show (cols.map g).getD i none = g c
    rw [getD_map_of_lt g cols i (colIdx_lt_length hc) none ""]
    rw [colIdx_getD "" hc]

theorem cellL_cons_self (x : String) (xs : List String) (a : Option String)
    (r : List (Option String)) : cellL (x :: xs) (a :: r) x = a := by
  simp [cellL, colIdx]

theorem cellL_cons_ne {x c : String} (hx : x ≠ c) (xs : List String)
    (a : Option String) (r : List (Option String)) :
    cellL (x :: xs) (a :: r) c = cellL xs r c := by
  unfold cellL
  simp only [colIdx, hx, if_false]
  cases colIdx xs c with
  | none => rfl
  | some i => rfl

theorem cellL_set_of_ne {cols : List String} {c : String} {i : Nat}
    (r : List (Option String)) (a : Option String)
    (h : ∀ j, colIdx cols c = some j → j ≠ i) :
    cellL cols (r.set i a) c = cellL cols r c := by
  unfold cellL
  cases hc : colIdx cols c with
  | none => rfl
  | some j => exact getD_set_ne r i j a none (Ne.symm (h j hc))

theorem colIdx_ne_of_name_ne {cols : List String} {c c' : String} {i j : Nat}
    (h : c ≠ c') (hc : colIdx cols c = some i) (hc' : colIdx cols c' = some j) :
    i ≠ j := by
  intro he
  subst he
  exact h ((colIdx_getD "" hc).symm.trans (colIdx_getD "" hc'))

theorem cellL_set_name_ne {cols : List String} {c c' : String} {i : Nat}
    (hne : c' ≠ c) (hc : colIdx cols c = some i)
    (r : List (Option String)) (a : Option String) :
    cellL cols (r.set i a) c' = cellL cols r c' :=
  cellL_set_of_ne r a (fun j hj => colIdx_ne_of_name_ne hne hj hc)

theorem cellL_set_map_self {cols : List String} {c : String} {i : Nat}
    (f : Option String → Option String) {r : List (Option String)}
    (hc : colIdx cols c = some i) (h : i < r.length) :
    cellL cols (r.set i (f (r.getD i none))) c = f (cellL cols r c) := by
  unfold cellL
  rw [hc]
  exact getD_set_self r i _ none h

theorem colIdx_map_rename {m : String → String} {cols : List String} {c : String}
    (hinj : ∀ c' ∈ cols, m c' = m c → c' = c) :
    colIdx (cols.map m) (m c) = colIdx cols c := by
  induction cols with
  | nil => rfl
  | cons x xs ih =>
    by_cases hx : x = c
    · subst hx
      simp [colIdx]
    · have hmx : m x ≠ m c := fun he => hx (hinj x (by simp) he)
      simp [colIdx, hx, hmx, ih (fun c' hc' he => hinj c' (by simp [hc']) he)]

theorem cellL_rename {m : String → String} {cols : List String} {c : String}
    (r : List (Option String)) (hinj : ∀ c' ∈ cols, m c' = m c → c' = c) :
    cellL (cols.map m) r (m c) = cellL cols r c := by
  unfold cellL
  rw [colIdx_map_rename hinj]

/-! ### Sorting: permutation only (row order is irrelevant to the claims) -/

theorem insertLE_perm {α : Type} (le : α → α → Bool) (a : α) (l : List α) :
    (insertLE le a l).Perm (a :: l) := by
  induction l with
  | nil => exact List.Perm.refl _
  | cons b bs ih =>
    unfold insertLE
    by_cases h : le a b
    · simp only [h, if_true]
      exact List.Perm.refl _
    · simp only [h, if_false]
      exact (ih.cons b).trans (List.Perm.swap a b bs)

theorem sortLE_perm {α : Type} (le : α → α → Bool) (l : List α) :
    (sortLE le l).Perm l := by
  induction l with
  | nil => exact List.Perm.refl _
  | cons a as ih =>
    unfold sortLE
    simp only [List.foldr_cons]
    exact (insertLE_perm le a _).trans (ih.cons a)

/-! ### Well-formedness and column/cell preservation of the stages -/

theorem filterRegion_cols (tag : String) (df : DF) :
    (filterRegion tag df).cols = df.cols := by
  unfold filterRegion
  split <;> rfl

theorem filterRegion_rows_sublist (tag : String) (df : DF) :
    (filterRegion tag df).rows.Sublist df.rows := by
  unfold filterRegion
  split
  · exact List.filter_sublist _
  · exact List.Sublist.refl _

theorem filterRegion_WF (tag : String) (df : DF) (h : df.WF) :
    (filterRegion tag df).WF := by
  intro r hr
  rw [filterRegion_cols]
  exact h r ((filterRegion_rows_sublist tag df).mem hr)

theorem stdRename_WF (df : DF) (h : df.WF) : (stdRename df).WF := by
  intro r hr
  simp only [stdRename, List.length_map]
  exact h r hr

theorem dropRow_length (cols cs : List String) (r : List (Option String))
    (h : r.length = cols.length) :
    (dropRow cols cs r).length = (cols.filter (fun c => decide (c ∉ cs))).length := by
  induction cols generalizing r with
  | nil =>
    cases r with
    | nil => rfl
    | cons a r' => simp at h
  | cons x xs ih =>
    cases r with
    | nil => simp at h
    | cons a r' =>
      have h' : r'.length = xs.length := by simpa using h
      by_cases hx : x ∈ cs
      · simp [dropRow, hx, List.filter] at ih ⊢
        exact ih r' h'
      · simp [dropRow, hx, List.filter] at ih ⊢
        exact ih r' h'

theorem dropCols_WF (cs : List String) (df : DF) (h : df.WF) : (dropCols cs df).WF := by
  intro r hr
  simp only [dropCols, List.mem_map] at hr
  obtain ⟨r0, hr0, rfl⟩ := hr
  exact dropRow_length df.cols cs r0 (h r0 hr0)

theorem dropRow_cons (x : String) (xs cs : List String) (a : Option String)
    (r : List (Option String)) :
    dropRow (x :: xs) cs (a :: r)
      = if x ∈ cs then dropRow xs cs r else a :: dropRow xs cs r := by
  by_cases hx : x ∈ cs
  · simp [dropRow, List.zip_cons_cons, List.filter_cons, hx]
  · simp [dropRow, List.zip_cons_cons, List.filter_cons, hx]

theorem filter_not_mem_cons (x : String) (xs cs : List String) :
    (x :: xs).filter (fun y => decide (y ∉ cs))
      = if x ∈ cs then xs.filter (fun y => decide (y ∉ cs))
        else x :: xs.filter (fun y => decide (y ∉ cs)) := by
  by_cases hx : x ∈ cs
  · simp [List.filter_cons, hx]
  · simp [List.filter_cons, hx]

theorem cellL_dropRow {cols cs : List String} {c : String}
    (hc : c ∉ cs) :
    ∀ (r : List (Option String)), r.length = cols.length →
      cellL (cols.filter (fun x => decide (x ∉ cs))) (dropRow cols cs r) c
        = cellL cols r c := by
  induction cols with
  | nil =>
    intro r hlen
    cases r with
    | nil => rfl
    | cons a r' => simp at hlen
  | cons x xs ih =>
    intro r hlen
    cases r with
    | nil => simp at hlen
    | cons a r' =>
      have h' : r'.length = xs.length := by simpa using hlen
      rw [dropRow_cons, filter_not_mem_cons]
      by_cases hx : x ∈ cs
      · have hxc : x ≠ c := fun he => hc (he ▸ hx)
        rw [if_pos hx, if_pos hx, cellL_cons_ne hxc xs a r']
        exact ih r' h'
      · rw [if_neg hx, if_neg hx]
        by_cases hxc : x = c
        · subst hxc
          rw [cellL_cons_self, cellL_cons_self]
        · rw [cellL_cons_ne hxc _ a r', cellL_cons_ne hxc _ _ _]
          exact ih r' h'

theorem mapCol_cols (c : String) (f : Option String → Option String) (df : DF) :
    (mapCol c f df).cols = df.cols := by
  unfold mapCol
  split <;> rfl

theorem mapCol_WF (c : String) (f : Option String → Option String) (df : DF)
    (h : df.WF) : (mapCol c f df).WF := by
  unfold mapCol
  split
  · exact h
  · intro r hr
    simp only [List.mem_map] at hr
    obtain ⟨r0, hr0, rfl⟩ := hr
    simpa using h r0 hr0

theorem stdNumeric_cols (toNum : String → Option String) (vcs : List String) (df : DF) :
    (stdNumeric toNum vcs df).cols = df.cols := by
  unfold stdNumeric
  induction vcs generalizing df with
  | nil => rfl
  | cons c cs ih =>
    simp only [List.foldl_cons]
    by_cases hc : c ∈ df.cols
    · rw [if_pos hc, ih, mapCol_cols]
    · rw [if_neg hc, ih]

theorem stdNumeric_WF (toNum : String → Option String) (vcs : List String) (df : DF)
    (h : df.WF) : (stdNumeric toNum vcs df).WF := by
  unfold stdNumeric
  induction vcs generalizing df with
  | nil => exact h
  | cons c cs ih =>
    simp only [List.foldl_cons]
    by_cases hc : c ∈ df.cols
    · rw [if_pos hc]
      exact ih _ (mapCol_WF c _ df h)
    · rw [if_neg hc]
      exact ih _ h

theorem stdDropNa_cols (vcs : List String) (df : DF) :
    (stdDropNa vcs df).cols = df.cols := by
  by_cases h : (vcs.filter (fun c => decide (c ∈ df.cols))).isEmpty
  · simp [stdDropNa, h]
  · simp [stdDropNa, h]

theorem stdDropNa_rows_sublist (vcs : List String) (df : DF) :
    (stdDropNa vcs df).rows.Sublist df.rows := by
  by_cases h : (vcs.filter (fun c => decide (c ∈ df.cols))).isEmpty
  · simp only [stdDropNa, h, if_true]
    exact List.Sublist.refl _
  · simp only [stdDropNa, h, if_false]
    exact List.filter_sublist _

theorem stdSort_cols (df : DF) : (stdSort df).cols = df.cols := rfl

theorem stdSort_rows_perm (df : DF) : (stdSort df).rows.Perm df.rows :=
  sortLE_perm _ _

theorem DF.cell_eq (df : DF) (r : List (Option String)) (c : String) :
    df.cell r c = cellL df.cols r c := rfl

/-! ### melt and selectCols -/

theorem melt_cols (df : DF) (v : String) :
    (melt df v).cols = df.cols.filter (fun c => !firstIsDigit c) ++ ["date", v] := rfl

theorem mem_melt_rows (df : DF) (v : String) (row : List (Option String)) :
    row ∈ (melt df v).rows ↔
      ∃ d, (d ∈ df.cols ∧ firstIsDigit d) ∧
        ∃ r0 ∈ df.rows,
          row = (df.cols.filter (fun c => !firstIsDigit c)).map (fun c => cellL df.cols r0 c)
                ++ [some d, cellL df.cols r0 d] := by
  simp only [melt, List.mem_flatMap, List.mem_map, List.mem_filter]
  constructor
  · rintro ⟨d, hd, r0, hr0, rfl⟩
    exact ⟨d, hd, r0, hr0, rfl⟩
  · rintro ⟨d, hd, r0, hr0, rfl⟩
    exact ⟨d, hd, r0, hr0, rfl⟩

theorem melt_WF (df : DF) (v : String) : (melt df v).WF := by
  intro row hr
  obtain ⟨d, _, r0, _, rfl⟩ := (mem_melt_rows df v row).1 hr
  simp [melt_cols]

theorem melt_row_cell_date {df : DF} {v : String} (hd : "date" ∉ df.cols)
    (d : String) (r0 : List (Option String)) :
    cellL (melt df v).cols
      ((df.cols.filter (fun c => !firstIsDigit c)).map (fun c => cellL df.cols r0 c)
        ++ [some d, cellL df.cols r0 d]) "date" = some d := by
  rw [melt_cols]
  rw [cellL_append_right _ (fun hmem => hd (List.mem_of_mem_filter hmem))
    (by simp)]
  exact cellL_cons_self _ _ _ _

theorem melt_row_cell_id {df : DF} {v : String} {c : String}
    (hc : c ∈ df.cols) (hcd : firstIsDigit c = false)
    (d : String) (r0 : List (Option String)) :
    cellL (melt df v).cols
      ((df.cols.filter (fun c => !firstIsDigit c)).map (fun c => cellL df.cols r0 c)
        ++ [some d, cellL df.cols r0 d]) c = cellL df.cols r0 c := by
  rw [melt_cols]
  have hmem : c ∈ df.cols.filter (fun c => !firstIsDigit c) :=
    List.mem_filter.2 ⟨hc, by simp [hcd]⟩
  rw [cellL_append_left _ hmem (by simp)]
  exact cellL_map_cols _ hmem

theorem selectCols_WF (cs : List String) (df : DF) : (selectCols cs df).WF := by
  intro r hr
  simp only [selectCols, List.mem_map] at hr
  obtain ⟨r0, _, rfl⟩ := hr
  simp [selectCols]

theorem key_rd_selectCols_row (df : DF) (v : String) (r0 : List (Option String)) :
    key_rd (selectCols ["RegionID", "date", v] df)
      (["RegionID", "date", v].map (fun c => cellL df.cols r0 c)) = key_rd df r0 := by
  unfold key_rd
  rw [DF.cell_eq, DF.cell_eq, DF.cell_eq, DF.cell_eq]
  show (cellL ["RegionID", "date", v] _ "RegionID", cellL ["RegionID", "date", v] _ "date") = _
  rw [cellL_map_cols _ (by simp), cellL_map_cols _ (by simp)]

theorem keys_rd_selectCols (df : DF) (v : String) :
    keys_rd (selectCols ["RegionID", "date", v] df) = keys_rd df := by
  unfold keys_rd
  show (df.rows.map _).map _ = _
  rw [List.map_map]
  exact List.map_congr_left (fun r0 _ => key_rd_selectCols_row df v r0)

/-! ### The merge step -/

theorem rnk_eval {v : String} (hv1 : v ≠ "RegionID") (hv2 : v ≠ "date") :
    (["RegionID", "date", v].filter (fun c => !(c == "RegionID" || c == "date"))) = [v] := by
  simp [List.filter_cons, hv1, hv2]
theorem selectCols_cols (cs : List String) (df : DF) : (selectCols cs df).cols = cs := rfl

theorem selectCols_rows (cs : List String) (df : DF) :
    (selectCols cs df).rows = df.rows.map (fun r => cs.map (fun c => cellL df.cols r c)) := rfl

theorem flatMapCongr {α β : Type} {l : List α} {f g : α → List β}
    (h : ∀ a ∈ l, f a = g a) : l.flatMap f = l.flatMap g := by
  induction l with
  | nil => rfl
  | cons a as ih =>
    simp only [List.flatMap_cons]
    rw [h a (by simp), ih (fun a' ha' => h a' (by simp [ha']))]

theorem mergeStep_rows_eq (acc df : DF) {v : String}
    (hv1 : v ≠ "RegionID") (hv2 : v ≠ "date") :
    (mergeStep acc df v).rows =
      (acc.rows.flatMap (fun lr =>
        if (df.rows.filter (fun r0 => key_rd df r0 == key_rd acc lr)).isEmpty
        then [lr ++ [none]]
        else (df.rows.filter (fun r0 => key_rd df r0 == key_rd acc lr)).map
              (fun r0 => lr ++ [cellL df.cols r0 v])))
      ++ ((df.rows.filter (fun r0 => acc.rows.all (fun lr => !(key_rd acc lr == key_rd df r0)))).map
          (fun r0 => acc.cols.map (fun c => if c == "RegionID" || c == "date"
              then cellL df.cols r0 c else none) ++ [cellL df.cols r0 v])) := by
  have hsubkey : ∀ r0 : List (Option String),
      key_rd (selectCols ["RegionID", "date", v] df)
        (["RegionID", "date", v].map (fun c => cellL df.cols r0 c)) = key_rd df r0 :=
    fun r0 => key_rd_selectCols_row df v r0
  have hsubcell : ∀ r0 : List (Option String),
      (selectCols ["RegionID", "date", v] df).cell
        (["RegionID", "date", v].map (fun c => cellL df.cols r0 c)) v = cellL df.cols r0 v := by
    intro r0
    rw [DF.cell_eq, selectCols_cols]
    exact cellL_map_cols _ (by simp)
  show (outerMergeRD acc (selectCols ["RegionID", "date", v] df)).rows = _
  simp only [outerMergeRD, selectCols_cols]
  rw [rnk_eval hv1 hv2]
  simp only [List.map_cons, List.map_nil]
  congr 1
  · apply flatMapCongr
    intro lr _
    have hfil : (selectCols ["RegionID", "date", v] df).rows.filter
        (fun rr => key_rd (selectCols ["RegionID", "date", v] df) rr == key_rd acc lr)
        = (df.rows.filter (fun r0 => key_rd df r0 == key_rd acc lr)).map
            (fun r0 => ["RegionID", "date", v].map (fun c => cellL df.cols r0 c)) := by
      rw [selectCols_rows, List.filter_map]
      congr 1
    rw [hfil]
    have hempty : ((df.rows.filter (fun r0 => key_rd df r0 == key_rd acc lr)).map
        (fun r0 => ["RegionID", "date", v].map (fun c => cellL df.cols r0 c))).isEmpty
        = (df.rows.filter (fun r0 => key_rd df r0 == key_rd acc lr)).isEmpty := by
      cases df.rows.filter (fun r0 => key_rd df r0 == key_rd acc lr) <;> rfl
    rw [hempty]
    by_cases hms : (df.rows.filter (fun r0 => key_rd df r0 == key_rd acc lr)).isEmpty
    · rw [if_pos hms, if_pos hms]
    · rw [if_neg hms, if_neg hms, List.map_map]
      apply List.map_congr_left
      intro r0 _
      simp only [Function.comp]
      rw [hsubcell r0]
  · have hfil : (selectCols ["RegionID", "date", v] df).rows.filter
        (fun rr => acc.rows.all (fun lr =>
          !(key_rd acc lr == key_rd (selectCols ["RegionID", "date", v] df) rr)))
        = (df.rows.filter (fun r0 => acc.rows.all (fun lr =>
            !(key_rd acc lr == key_rd df r0)))).map
            (fun r0 => ["RegionID", "date", v].map (fun c => cellL df.cols r0 c)) := by
      rw [selectCols_rows, List.filter_map]
      congr 1
    rw [hfil, List.map_map]
    apply List.map_congr_left
    intro r0 _
    simp only [Function.comp]
    congr 1
    · apply List.map_congr_left
      intro c _
      by_cases hcase : (c == "RegionID" || c == "date") = true
      · rw [if_pos hcase, if_pos hcase]
        rw [Bool.or_eq_true] at hcase
        rcases hcase with hcr | hcd
        · rw [beq_iff_eq] at hcr
          subst hcr
          rw [DF.cell_eq, selectCols_cols]
          exact cellL_map_cols _ (by simp)
        · rw [beq_iff_eq] at hcd
          subst hcd
          rw [DF.cell_eq, selectCols_cols]
          exact cellL_map_cols _ (by simp)
      · rw [if_neg hcase, if_neg hcase]
    · rw [hsubcell r0]

theorem mem_mergeStep_rows (acc df : DF) {v : String}
    (hv1 : v ≠ "RegionID") (hv2 : v ≠ "date") (row : List (Option String)) :
    row ∈ (mergeStep acc df v).rows ↔
      ((∃ lr ∈ acc.rows,
         ((∀ r0 ∈ df.rows, ¬ key_rd df r0 = key_rd acc lr) ∧ row = lr ++ [none])
         ∨ (∃ r0 ∈ df.rows, key_rd df r0 = key_rd acc lr ∧ row = lr ++ [cellL df.cols r0 v]))
       ∨ (∃ r0 ∈ df.rows, (∀ lr ∈ acc.rows, ¬ key_rd acc lr = key_rd df r0) ∧
           row = acc.cols.map (fun c => if c == "RegionID" || c == "date"
                   then cellL df.cols r0 c else none) ++ [cellL df.cols r0 v])) := by
  rw [mergeStep_rows_eq acc df hv1 hv2, List.mem_append]
  constructor
  · rintro (h | h)
    · obtain ⟨lr, hlr, hin⟩ := List.mem_flatMap.1 h
      refine Or.inl ⟨lr, hlr, ?_⟩
      by_cases hms : (df.rows.filter (fun r0 => key_rd df r0 == key_rd acc lr)).isEmpty
      · rw [if_pos hms] at hin
        have hrow : row = lr ++ [none] := by simpa using hin
        refine Or.inl ⟨?_, hrow⟩
        intro r0 hr0 hkey
        rw [List.isEmpty_iff, List.filter_eq_nil_iff] at hms
        exact hms r0 hr0 (by rw [beq_iff_eq]; exact hkey)
      · rw [if_neg hms] at hin
        obtain ⟨r0, hr0f, rfl⟩ := List.mem_map.1 hin
        obtain ⟨hr0, hkey⟩ := List.mem_filter.1 hr0f
        exact Or.inr ⟨r0, hr0, beq_iff_eq.1 hkey, rfl⟩
    · obtain ⟨r0, hr0f, rfl⟩ := List.mem_map.1 h
      obtain ⟨hr0, hall⟩ := List.mem_filter.1 hr0f
      refine Or.inr ⟨r0, hr0, ?_, rfl⟩
      intro lr hlr
      have hx := (List.all_eq_true.1 hall) lr hlr
      rw [Bool.not_eq_true', beq_eq_false_iff_ne] at hx
      exact hx
  · rintro (⟨lr, hlr, hcase⟩ | ⟨r0, hr0, hall, hrow⟩)
    · refine Or.inl (List.mem_flatMap.2 ⟨lr, hlr, ?_⟩)
      rcases hcase with ⟨hnomatch, hrow⟩ | ⟨r0, hr0, hkey, hrow⟩
      · have hms : (df.rows.filter (fun r0 => key_rd df r0 == key_rd acc lr)).isEmpty := by
          rw [List.isEmpty_iff, List.filter_eq_nil_iff]
          intro r0 hr0 hbeq
          exact hnomatch r0 hr0 (beq_iff_eq.1 hbeq)
        rw [if_pos hms]
        simp [hrow]
      · have hmem0 : r0 ∈ df.rows.filter (fun r0 => key_rd df r0 == key_rd acc lr) :=
          List.mem_filter.2 ⟨hr0, beq_iff_eq.2 hkey⟩
        have hms : ¬ (df.rows.filter (fun r0 => key_rd df r0 == key_rd acc lr)).isEmpty := by
          rw [List.isEmpty_iff]
          intro he
          rw [he] at hmem0
          cases hmem0
        rw [if_neg hms]
        exact List.mem_map.2 ⟨r0, hmem0, hrow.symm⟩
    · refine Or.inr (List.mem_map.2 ⟨r0, ?_, hrow.symm⟩)
      refine List.mem_filter.2 ⟨hr0, ?_⟩
      rw [List.all_eq_true]
      intro lr hlr
      rw [Bool.not_eq_true', beq_eq_false_iff_ne]
      exact hall lr hlr

theorem mergeStep_cols (acc df : DF) {v : String}
    (hv1 : v ≠ "RegionID") (hv2 : v ≠ "date") :
    (mergeStep acc df v).cols = acc.cols ++ [v] := by
  show (outerMergeRD acc (selectCols ["RegionID", "date", v] df)).cols = _
  simp only [outerMergeRD, selectCols_cols]
  rw [rnk_eval hv1 hv2]

theorem mergeStep_WF (acc df : DF) {v : String}
    (hv1 : v ≠ "RegionID") (hv2 : v ≠ "date") (hWF : acc.WF) :
    (mergeStep acc df v).WF := by
  intro row hrow
  rw [mergeStep_cols acc df hv1 hv2]
  rcases (mem_mergeStep_rows acc df hv1 hv2 row).1 hrow with ⟨lr, hlr, hc⟩ | ⟨r0, _, _, rfl⟩
  · rcases hc with ⟨_, rfl⟩ | ⟨r0, _, _, rfl⟩ <;> simp [hWF lr hlr]
  · simp

theorem key_rd_mergeStep_left (acc df : DF) {v : String}
    (hv1 : v ≠ "RegionID") (hv2 : v ≠ "date")
    (hRID : "RegionID" ∈ acc.cols) (hdate : "date" ∈ acc.cols)
    {lr : List (Option String)} (hlen : lr.length = acc.cols.length) (x : Option String) :
    key_rd (mergeStep acc df v) (lr ++ [x]) = key_rd acc lr := by
  unfold key_rd
  rw [DF.cell_eq, DF.cell_eq, DF.cell_eq, DF.cell_eq, mergeStep_cols acc df hv1 hv2]
  rw [cellL_append_left [v] hRID hlen, cellL_append_left [v] hdate hlen]

theorem key_rd_mergeStep_right (acc df : DF) {v : String}
    (hv1 : v ≠ "RegionID") (hv2 : v ≠ "date")
    (hRID : "RegionID" ∈ acc.cols) (hdate : "date" ∈ acc.cols)
    (r0 : List (Option String)) (x : Option String) :
    key_rd (mergeStep acc df v)
      (acc.cols.map (fun c => if c == "RegionID" || c == "date"
          then cellL df.cols r0 c else none) ++ [x])
      = key_rd df r0 := by
  unfold key_rd
  rw [DF.cell_eq, DF.cell_eq, DF.cell_eq, DF.cell_eq, mergeStep_cols acc df hv1 hv2]
  rw [cellL_append_left [v] hRID (by simp), cellL_append_left [v] hdate (by simp)]
  rw [cellL_map_cols _ hRID, cellL_map_cols _ hdate]
  have h1 : (("RegionID" : String) == "RegionID" || ("RegionID" : String) == "date") = true := by
    decide
  have h2 : (("date" : String) == "RegionID" || ("date" : String) == "date") = true := by
    decide
  rw [if_pos h1, if_pos h2]

theorem cellL_append_one_last {cols : List String} {v : String} (hv : v ∉ cols)
    {r : List (Option String)} (x : Option String) (hlen : r.length = cols.length) :
    cellL (cols ++ [v]) (r ++ [x]) v = x := by
  rw [cellL_append_right [v] hv hlen]
  exact cellL_cons_self v [] x []

theorem cellL_mergeStep_right_other {acc df : DF} {v c : String}
    (hc : c ∈ acc.cols) (hc1 : c ≠ "RegionID") (hc2 : c ≠ "date")
    (r0 : List (Option String)) (x : Option String) :
    cellL (acc.cols ++ [v])
      (acc.cols.map (fun c => if c == "RegionID" || c == "date"
          then cellL df.cols r0 c else none) ++ [x]) c = none := by
  rw [cellL_append_left [v] hc (by simp)]
  rw [cellL_map_cols _ hc]
  have e1 : (c == "RegionID") = false := beq_eq_false_iff_ne.2 hc1
  have e2 : (c == "date") = false := beq_eq_false_iff_ne.2 hc2
  rw [e1, e2]
  rfl

theorem filterKeyLenLeOne {α β : Type} [BEq β] [LawfulBEq β] (l : List α) (f : α → β) (k : β)
    (h : (l.map f).Nodup) : (l.filter (fun x => f x == k)).length ≤ 1 := by
  induction l with
  | nil => simp
  | cons a as ih =>
    simp only [List.map_cons, List.nodup_cons] at h
    obtain ⟨hna, hnodup⟩ := h
    rw [List.filter_cons]
    by_cases ha : (f a == k) = true
    · rw [if_pos ha]
      have hnil : as.filter (fun x => f x == k) = [] := by
        rw [List.filter_eq_nil_iff]
        intro x hx hbeq
        exact hna (List.mem_map.2 ⟨x, hx, (beq_iff_eq.1 hbeq).trans (beq_iff_eq.1 ha).symm⟩)
      rw [hnil]
      simp
    · rw [if_neg ha]
      exact ih hnodup

theorem flatMap_singleton_eq_map {α β : Type} (l : List α) (g : α → β) :
    (l.flatMap (fun a => [g a])) = l.map g := by
  induction l with
  | nil => rfl
  | cons a as ih => simp [List.flatMap_cons, ih]

theorem keys_rd_mergeStep (acc df : DF) {v : String}
    (hv1 : v ≠ "RegionID") (hv2 : v ≠ "date")
    (hRID : "RegionID" ∈ acc.cols) (hdate : "date" ∈ acc.cols)
    (hWF : acc.WF) (hnodupR : (keys_rd df).Nodup) :
    keys_rd (mergeStep acc df v)
      = keys_rd acc
        ++ (df.rows.filter (fun r0 => acc.rows.all (fun lr =>
            !(key_rd acc lr == key_rd df r0)))).map (key_rd df) := by
  show (mergeStep acc df v).rows.map (key_rd (mergeStep acc df v)) = _
  rw [mergeStep_rows_eq acc df hv1 hv2, List.map_append]
  congr 1
  · rw [List.map_flatMap]
    show _ = keys_rd acc
    unfold keys_rd
    rw [← flatMap_singleton_eq_map]
    apply flatMapCongr
    intro lr hlr
    by_cases hms : (df.rows.filter (fun r0 => key_rd df r0 == key_rd acc lr)).isEmpty
    · rw [if_pos hms]
      simp only [List.map_cons, List.map_nil]
      rw [key_rd_mergeStep_left acc df hv1 hv2 hRID hdate (hWF lr hlr) none]
    · rw [if_neg hms]
      have hle : (df.rows.filter (fun r0 => key_rd df r0 == key_rd acc lr)).length ≤ 1 :=
        filterKeyLenLeOne df.rows (key_rd df) (key_rd acc lr) hnodupR
      cases hmf : df.rows.filter (fun r0 => key_rd df r0 == key_rd acc lr) with
      | nil =>
        rw [hmf] at hms
        exact absurd rfl hms
      | cons r0 tail =>
        rw [hmf] at hle
        have htail : tail = [] := by
          simp only [List.length_cons] at hle
          exact List.length_eq_zero.1 (by omega)
        subst htail
        simp only [List.map_cons, List.map_map, List.map_nil]
        rw [key_rd_mergeStep_left acc df hv1 hv2 hRID hdate (hWF lr hlr) _]
  · rw [List.map_map]
    apply List.map_congr_left
    intro r0 _
    exact key_rd_mergeStep_right acc df hv1 hv2 hRID hdate r0 _

theorem mergeStep_keys_nodup (acc df : DF) {v : String}
    (hv1 : v ≠ "RegionID") (hv2 : v ≠ "date")
    (hRID : "RegionID" ∈ acc.cols) (hdate : "date" ∈ acc.cols) (hWF : acc.WF)
    (hnodupL : (keys_rd acc).Nodup) (hnodupR : (keys_rd df).Nodup) :
    (keys_rd (mergeStep acc df v)).Nodup := by
  rw [keys_rd_mergeStep acc df hv1 hv2 hRID hdate hWF hnodupR]
  refine List.Nodup.append hnodupL ?_ ?_
  · exact ((List.filter_sublist df.rows).map (key_rd df)).nodup hnodupR
  · intro k hkA hkB
    obtain ⟨lr, hlr, hkeyA⟩ := List.mem_map.1 hkA
    obtain ⟨r0, hr0f, hkeyB⟩ := List.mem_map.1 hkB
    obtain ⟨hr0, hall⟩ := List.mem_filter.1 hr0f
    have hx := (List.all_eq_true.1 hall) lr hlr
    rw [Bool.not_eq_true', beq_eq_false_iff_ne] at hx
    exact hx (hkeyA.trans hkeyB.symm)

theorem mergeStep_keys_iff (acc df : DF) {v : String}
    (hv1 : v ≠ "RegionID") (hv2 : v ≠ "date")
    (hRID : "RegionID" ∈ acc.cols) (hdate : "date" ∈ acc.cols) (hWF : acc.WF)
    (k : Option String × Option String) :
    k ∈ keys_rd (mergeStep acc df v) ↔ k ∈ keys_rd acc ∨ k ∈ keys_rd df := by
  constructor
  · intro hk
    obtain ⟨row, hrow, rfl⟩ := List.mem_map.1 hk
    rcases (mem_mergeStep_rows acc df hv1 hv2 row).1 hrow with
      ⟨lr, hlr, hcase⟩ | ⟨r0, hr0, _, rfl⟩
    · rcases hcase with ⟨_, rfl⟩ | ⟨r0, _, _, rfl⟩
      · rw [key_rd_mergeStep_left acc df hv1 hv2 hRID hdate (hWF lr hlr) _]
        exact Or.inl (List.mem_map.2 ⟨lr, hlr, rfl⟩)
      · rw [key_rd_mergeStep_left acc df hv1 hv2 hRID hdate (hWF lr hlr) _]
        exact Or.inl (List.mem_map.2 ⟨lr, hlr, rfl⟩)
    · rw [key_rd_mergeStep_right acc df hv1 hv2 hRID hdate r0 _]
      exact Or.inr (List.mem_map.2 ⟨r0, hr0, rfl⟩)
  · intro hk
    rcases hk with hk | hk
    · obtain ⟨lr, hlr, rfl⟩ := List.mem_map.1 hk
      by_cases hex : ∃ r0 ∈ df.rows, key_rd df r0 = key_rd acc lr
      · obtain ⟨r0, hr0, hkey⟩ := hex
        refine List.mem_map.2 ⟨lr ++ [cellL df.cols r0 v], ?_, ?_⟩
        · exact (mem_mergeStep_rows acc df hv1 hv2 _).2
            (Or.inl ⟨lr, hlr, Or.inr ⟨r0, hr0, hkey, rfl⟩⟩)
        · exact key_rd_mergeStep_left acc df hv1 hv2 hRID hdate (hWF lr hlr) _
      · push_neg at hex
        refine List.mem_map.2 ⟨lr ++ [none], ?_, ?_⟩
        · exact (mem_mergeStep_rows acc df hv1 hv2 _).2
            (Or.inl ⟨lr, hlr, Or.inl ⟨hex, rfl⟩⟩)
        · exact key_rd_mergeStep_left acc df hv1 hv2 hRID hdate (hWF lr hlr) _
    · obtain ⟨r0, hr0, rfl⟩ := List.mem_map.1 hk
      by_cases hex : ∃ lr ∈ acc.rows, key_rd acc lr = key_rd df r0
      · obtain ⟨lr, hlr, hkey⟩ := hex
        refine List.mem_map.2 ⟨lr ++ [cellL df.cols r0 v], ?_, ?_⟩
        · exact (mem_mergeStep_rows acc df hv1 hv2 _).2
            (Or.inl ⟨lr, hlr, Or.inr ⟨r0, hr0, hkey.symm, rfl⟩⟩)
        · rw [key_rd_mergeStep_left acc df hv1 hv2 hRID hdate (hWF lr hlr) _]
          exact hkey
      · push_neg at hex
        refine List.mem_map.2
          ⟨acc.cols.map (fun c => if c == "RegionID" || c == "date"
              then cellL df.cols r0 c else none) ++ [cellL df.cols r0 v], ?_, ?_⟩
        · exact (mem_mergeStep_rows acc df hv1 hv2 _).2 (Or.inr ⟨r0, hr0, hex, rfl⟩)
        · exact key_rd_mergeStep_right acc df hv1 hv2 hRID hdate r0 _

theorem mergeStep_nulliff_preserve (acc df : DF) {v c : String}
    (hv1 : v ≠ "RegionID") (hv2 : v ≠ "date")
    (hRID : "RegionID" ∈ acc.cols) (hdate : "date" ∈ acc.cols) (hWF : acc.WF)
    (hc : c ∈ acc.cols) (hc1 : c ≠ "RegionID") (hc2 : c ≠ "date")
    (S : Option String × Option String → Prop)
    (hSsub : ∀ k, S k → k ∈ keys_rd acc)
    (hS : ∀ r ∈ acc.rows, (acc.cell r c = none ↔ ¬ S (key_rd acc r))) :
    ∀ row ∈ (mergeStep acc df v).rows,
      ((mergeStep acc df v).cell row c = none ↔ ¬ S (key_rd (mergeStep acc df v) row)) := by
  intro row hrow
  rcases (mem_mergeStep_rows acc df hv1 hv2 row).1 hrow with
    ⟨lr, hlr, hcase⟩ | ⟨r0, hr0, hall, rfl⟩
  · rcases hcase with ⟨_, rfl⟩ | ⟨r0, _, _, rfl⟩
    · rw [DF.cell_eq, mergeStep_cols acc df hv1 hv2,
        cellL_append_left [v] hc (hWF lr hlr),
        key_rd_mergeStep_left acc df hv1 hv2 hRID hdate (hWF lr hlr) _]
      exact hS lr hlr
    · rw [DF.cell_eq, mergeStep_cols acc df hv1 hv2,
        cellL_append_left [v] hc (hWF lr hlr),
        key_rd_mergeStep_left acc df hv1 hv2 hRID hdate (hWF lr hlr) _]
      exact hS lr hlr
  · rw [DF.cell_eq, mergeStep_cols acc df hv1 hv2,
      cellL_mergeStep_right_other hc hc1 hc2 r0 _,
      key_rd_mergeStep_right acc df hv1 hv2 hRID hdate r0 _]
    constructor
    · intro _ hSk
      obtain ⟨lr, hlr, hkey⟩ := List.mem_map.1 (hSsub _ hSk)
      exact hall lr hlr hkey
    · intro _
      rfl

theorem mergeStep_nulliff_new (acc df : DF) {v : String}
    (hv1 : v ≠ "RegionID") (hv2 : v ≠ "date")
    (hRID : "RegionID" ∈ acc.cols) (hdate : "date" ∈ acc.cols) (hWF : acc.WF)
    (hvL : v ∉ acc.cols)
    (hnn : ∀ r ∈ df.rows, df.cell r v ≠ none) :
    ∀ row ∈ (mergeStep acc df v).rows,
      ((mergeStep acc df v).cell row v = none
        ↔ key_rd (mergeStep acc df v) row ∉ keys_rd df) := by
  intro row hrow
  rcases (mem_mergeStep_rows acc df hv1 hv2 row).1 hrow with
    ⟨lr, hlr, hcase⟩ | ⟨r0, hr0, hall, rfl⟩
  · rcases hcase with ⟨hnm, rfl⟩ | ⟨r0, hr0, hkey, rfl⟩
    · rw [DF.cell_eq, mergeStep_cols acc df hv1 hv2,
        cellL_append_one_last hvL none (hWF lr hlr),
        key_rd_mergeStep_left acc df hv1 hv2 hRID hdate (hWF lr hlr) _]
      constructor
      · intro _ hmem
        obtain ⟨r0, hr0, hkey⟩ := List.mem_map.1 hmem
        exact hnm r0 hr0 hkey
      · intro _
        rfl
    · rw [DF.cell_eq, mergeStep_cols acc df hv1 hv2,
        cellL_append_one_last hvL _ (hWF lr hlr),
        key_rd_mergeStep_left acc df hv1 hv2 hRID hdate (hWF lr hlr) _]
      constructor
      · intro hnone
        exact absurd hnone (hnn r0 hr0)
      · intro hnmem
        exact absurd (List.mem_map.2 ⟨r0, hr0, hkey⟩) hnmem
  · rw [DF.cell_eq, mergeStep_cols acc df hv1 hv2,
      cellL_append_one_last hvL _ (by simp),
      key_rd_mergeStep_right acc df hv1 hv2 hRID hdate r0 _]
    constructor
    · intro hnone
      exact absurd hnone (hnn r0 hr0)
    · intro hnmem
      exact absurd (List.mem_map.2 ⟨r0, hr0, rfl⟩) hnmem

theorem mergeAux_spec (vcols : List String) :
    ∀ (ps : List (DF × String)) (acc : DF) (done : List (DF × String)),
    acc.WF →
    "RegionID" ∈ acc.cols → "date" ∈ acc.cols →
    (∀ p ∈ ps, chooseValueCol p.1 vcols = some p.2) →
    (∀ p ∈ ps, p.2 ≠ "RegionID" ∧ p.2 ≠ "date" ∧ p.2 ∉ acc.cols) →
    (ps.map (fun p => p.2)).Nodup →
    (∀ k, k ∈ keys_rd acc ↔ ∃ p ∈ done, k ∈ keys_rd p.1) →
    (∀ p ∈ done, p.2 ∈ acc.cols ∧ p.2 ≠ "RegionID" ∧ p.2 ≠ "date") →
    (∀ p ∈ done, (∀ r ∈ p.1.rows, p.1.cell r p.2 ≠ none) →
       ∀ r ∈ acc.rows, (acc.cell r p.2 = none ↔ key_rd acc r ∉ keys_rd p.1)) →
    ∃ M, mergeAux vcols acc (ps.map (fun p => p.1)) = some M ∧
      M.cols = acc.cols ++ ps.map (fun p => p.2) ∧
      M.WF ∧
      (∀ k, k ∈ keys_rd M ↔ ∃ p ∈ done ++ ps, k ∈ keys_rd p.1) ∧
      (∀ p ∈ done ++ ps, (∀ r ∈ p.1.rows, p.1.cell r p.2 ≠ none) →
         ∀ r ∈ M.rows, (M.cell r p.2 = none ↔ key_rd M r ∉ keys_rd p.1)) ∧
      ((keys_rd acc).Nodup → (∀ p ∈ ps, (keys_rd p.1).Nodup) → (keys_rd M).Nodup) := by
  intro ps
  induction ps with
  | nil =>
    intro acc done hWF hRID hdate _ _ _ hkeys hdonecols hdonenull
    refine ⟨acc, rfl, by simp, hWF, ?_, ?_, fun h _ => h⟩
    · intro k
      simpa using hkeys k
    · intro p hp
      rw [List.append_nil] at hp
      exact hdonenull p hp
  | cons q ps ih =>
    intro acc done hWF hRID hdate hchoose hfresh hnodupv hkeys hdonecols hdonenull
    obtain ⟨df, v⟩ := q
    have hch : chooseValueCol df vcols = some v := hchoose (df, v) (by simp)
    obtain ⟨hv1, hv2, hvL⟩ := hfresh (df, v) (by simp)
    have hstep : mergeAux vcols acc (((df, v) :: ps).map (fun p => p.1))
        = mergeAux vcols (mergeStep acc df v) (ps.map (fun p => p.1)) := by
      simp [mergeAux, hch]
    have hcols' : (mergeStep acc df v).cols = acc.cols ++ [v] := mergeStep_cols acc df hv1 hv2
    have hWF' : (mergeStep acc df v).WF := mergeStep_WF acc df hv1 hv2 hWF
    have hRID' : "RegionID" ∈ (mergeStep acc df v).cols := by
      rw [hcols']
      exact List.mem_append_left _ hRID
    have hdate' : "date" ∈ (mergeStep acc df v).cols := by
      rw [hcols']
      exact List.mem_append_left _ hdate
    have hnodups : (((df, v) :: ps).map (fun p => p.2)).Nodup := hnodupv
    rw [List.map_cons, List.nodup_cons] at hnodups
    obtain ⟨hvnotin, hnodupv'⟩ := hnodups
    have hchoose' : ∀ p ∈ ps, chooseValueCol p.1 vcols = some p.2 :=
      fun p hp => hchoose p (by simp [hp])
    have hfresh' : ∀ p ∈ ps, p.2 ≠ "RegionID" ∧ p.2 ≠ "date" ∧ p.2 ∉ (mergeStep acc df v).cols := by
      intro p hp
      obtain ⟨h1, h2, h3⟩ := hfresh p (by simp [hp])
      refine ⟨h1, h2, ?_⟩
      rw [hcols']
      intro hmem
      rcases List.mem_append.1 hmem with hmem | hmem
      · exact h3 hmem
      · have hpv : p.2 = v := by simpa using hmem
        exact hvnotin (hpv ▸ List.mem_map.2 ⟨p, hp, rfl⟩)
    have hkeys' : ∀ k, k ∈ keys_rd (mergeStep acc df v)
        ↔ ∃ p ∈ done ++ [(df, v)], k ∈ keys_rd p.1 := by
      intro k
      rw [mergeStep_keys_iff acc df hv1 hv2 hRID hdate hWF k]
      constructor
      · rintro (h | h)
        · obtain ⟨p, hp, hk⟩ := (hkeys k).1 h
          exact ⟨p, by simp [hp], hk⟩
        · exact ⟨(df, v), by simp, h⟩
      · rintro ⟨p, hp, hk⟩
        rcases List.mem_append.1 hp with hp | hp
        · exact Or.inl ((hkeys k).2 ⟨p, hp, hk⟩)
        · have hpq : p = (df, v) := by simpa using hp
          subst hpq
          exact Or.inr hk
    have hdonecols' : ∀ p ∈ done ++ [(df, v)],
        p.2 ∈ (mergeStep acc df v).cols ∧ p.2 ≠ "RegionID" ∧ p.2 ≠ "date" := by
      intro p hp
      rcases List.mem_append.1 hp with hp | hp
      · obtain ⟨h1, h2, h3⟩ := hdonecols p hp
        exact ⟨by rw [hcols']; exact List.mem_append_left _ h1, h2, h3⟩
      · have hpq : p = (df, v) := by simpa using hp
        subst hpq
        exact ⟨by rw [hcols']; simp, hv1, hv2⟩
    have hdonenull' : ∀ p ∈ done ++ [(df, v)],
        (∀ r ∈ p.1.rows, p.1.cell r p.2 ≠ none) →
        ∀ r ∈ (mergeStep acc df v).rows,
          ((mergeStep acc df v).cell r p.2 = none
            ↔ key_rd (mergeStep acc df v) r ∉ keys_rd p.1) := by
      intro p hp hnn
      rcases List.mem_append.1 hp with hp | hp
      · obtain ⟨hmem, hne1, hne2⟩ := hdonecols p hp
        exact mergeStep_nulliff_preserve acc df hv1 hv2 hRID hdate hWF hmem hne1 hne2
          (fun k => k ∈ keys_rd p.1)
          (fun k hk => (hkeys k).2 ⟨p, hp, hk⟩)
          (hdonenull p hp hnn)
      · have hpq : p = (df, v) := by simpa using hp
        subst hpq
        exact mergeStep_nulliff_new acc df hv1 hv2 hRID hdate hWF hvL hnn
    obtain ⟨M, hM, hMcols, hMWF, hMkeys, hMnull, hMnodup⟩ :=
      ih (mergeStep acc df v) (done ++ [(df, v)]) hWF' hRID' hdate' hchoose' hfresh'
        hnodupv' hkeys' hdonecols' hdonenull'
    have hlist : (done ++ [(df, v)]) ++ ps = done ++ ((df, v) :: ps) := by simp
    refine ⟨M, ?_, ?_, hMWF, ?_, ?_, ?_⟩
    · rw [hstep]
      exact hM
    · rw [hMcols, hcols']
      simp
    · intro k
      rw [← hlist]
      exact hMkeys k
    · rw [← hlist]
      exact hMnull
    · intro hndL hndPs
      exact hMnodup
        (mergeStep_keys_nodup acc df hv1 hv2 hRID hdate hWF hndL (hndPs (df, v) (by simp)))
        (fun p hp => hndPs p (by simp [hp]))

/-! ### C2 — merge_variants: key union and null pattern -/

/-- C2 (amended): merging melted variant frames on `(RegionID, date)` yields
a frame whose key set is the union of the variants' key sets; and for each
variant whose own value column contains no nulls, the merged frame's value
column for that variant is null exactly on the keys that variant lacked.
(The claim as frozen states the "exactly" without the no-null proviso; a
variant carrying a null value refutes that — see the counterexample.) -/
theorem merge_variants_union_and_nulls
    (vcols : List String) (p0 : DF × String) (ps : List (DF × String))
    (hWF0 : p0.1.WF) (hRID0 : "RegionID" ∈ p0.1.cols) (hdate0 : "date" ∈ p0.1.cols)
    (hv0mem : p0.2 ∈ p0.1.cols) (hv0a : p0.2 ≠ "RegionID") (hv0b : p0.2 ≠ "date")
    (hchoose : ∀ p ∈ ps, chooseValueCol p.1 vcols = some p.2)
    (hfresh : ∀ p ∈ ps, p.2 ≠ "RegionID" ∧ p.2 ≠ "date" ∧ p.2 ∉ p0.1.cols)
    (hnodupv : (ps.map (fun p => p.2)).Nodup) :
    ∃ M, merge_variants ((p0 :: ps).map (fun p => p.1)) vcols = some M ∧
      (∀ k, k ∈ keys_rd M ↔ ∃ p ∈ p0 :: ps, k ∈ keys_rd p.1) ∧
      (∀ p ∈ p0 :: ps, (∀ r ∈ p.1.rows, p.1.cell r p.2 ≠ none) →
         ∀ r ∈ M.rows, (M.cell r p.2 = none ↔ key_rd M r ∉ keys_rd p.1)) := by
  have hkeys0 : ∀ k, k ∈ keys_rd p0.1 ↔ ∃ p ∈ [p0], k ∈ keys_rd p.1 := by
    intro k
    simp
  have hdonecols0 : ∀ p ∈ [p0], p.2 ∈ p0.1.cols ∧ p.2 ≠ "RegionID" ∧ p.2 ≠ "date" := by
    intro p hp
    have hpq : p = p0 := by simpa using hp
    subst hpq
    exact ⟨hv0mem, hv0a, hv0b⟩
  have hdonenull0 : ∀ p ∈ [p0], (∀ r ∈ p.1.rows, p.1.cell r p.2 ≠ none) →
      ∀ r ∈ p0.1.rows, (p0.1.cell r p.2 = none ↔ key_rd p0.1 r ∉ keys_rd p.1) := by
    intro p hp hnn
    have hpq : p = p0 := by simpa using hp
    subst hpq
    intro r hr
    constructor
    · intro hnone
      exact absurd hnone (hnn r hr)
    · intro hnmem
      exact absurd (List.mem_map.2 ⟨r, hr, rfl⟩) hnmem
  obtain ⟨M, hM, _, _, hMkeys, hMnull, _⟩ :=
    mergeAux_spec vcols ps p0.1 [p0] hWF0 hRID0 hdate0 hchoose hfresh hnodupv
      hkeys0 hdonecols0 hdonenull0
  refine ⟨M, ?_, ?_, ?_⟩
  · rw [List.map_cons]
    show mergeAux vcols p0.1 (ps.map (fun p => p.1)) = some M
    exact hM
  · intro k
    rw [hMkeys k]
    constructor
    · rintro ⟨p, hp, hk⟩
      exact ⟨p, by simpa using hp, hk⟩
    · rintro ⟨p, hp, hk⟩
      exact ⟨p, by simpa using hp, hk⟩
  · intro p hp
    exact hMnull p (by simpa using hp)

theorem merge_variants_union_and_nulls_witness :
    ∃ M, merge_variants
        [⟨["RegionID", "date", "v1"], [[some "1", some "d", some "3"]]⟩,
         ⟨["RegionID", "date", "v2"], [[some "2", some "d", some "4"]]⟩] ["v1", "v2"]
      = some M := by
  obtain ⟨M, hM, -, -⟩ := merge_variants_union_and_nulls ["v1", "v2"]
    (⟨["RegionID", "date", "v1"], [[some "1", some "d", some "3"]]⟩, "v1")
    [(⟨["RegionID", "date", "v2"], [[some "2", some "d", some "4"]]⟩, "v2")]
    (by decide) (by decide) (by decide) (by decide) (by decide) (by decide)
    (by decide) (by decide) (by decide)
  exact ⟨M, hM⟩

/-- C2 counterexample: with a variant whose value column carries a null at a
key the variant does have, the merged value column is null at a key the
variant did not lack — refuting "null exactly on the keys that variant
lacked" as universally stated. -/
theorem merge_variants_nulls_counterexample :
    merge_variants
        [⟨["RegionID", "date", "v1"], [[some "1", some "d", some "3"]]⟩,
         ⟨["RegionID", "date", "v2"], [[some "1", some "d", none]]⟩] ["v1", "v2"]
      = some ⟨["RegionID", "date", "v1", "v2"],
              [[some "1", some "d", some "3", none]]⟩ ∧
    (⟨["RegionID", "date", "v1", "v2"],
       [[some "1", some "d", some "3", none]]⟩ : DF).cell
        [some "1", some "d", some "3", none] "v2" = none ∧
    key_rd ⟨["RegionID", "date", "v1", "v2"],
        [[some "1", some "d", some "3", none]]⟩
        [some "1", some "d", some "3", none]
      ∈ keys_rd ⟨["RegionID", "date", "v2"], [[some "1", some "d", none]]⟩ := by
  refine ⟨by decide, by decide, by decide⟩

/-! ### melt: keys and column facts -/

theorem keys_rd_melt (df : DF) (v : String)
    (hRID : "RegionID" ∈ df.cols) (hd : "date" ∉ df.cols) :
    keys_rd (melt df v)
      = (df.cols.filter (fun c => firstIsDigit c)).flatMap
          (fun d => df.rows.map (fun r0 => (cellL df.cols r0 "RegionID", some d))) := by
  show (melt df v).rows.map (key_rd (melt df v)) = _
  rw [show (melt df v).rows = (df.cols.filter (fun c => firstIsDigit c)).flatMap
      (fun d => df.rows.map (fun r0 =>
        (df.cols.filter (fun c => !firstIsDigit c)).map (fun c => cellL df.cols r0 c)
        ++ [some d, cellL df.cols r0 d])) from rfl]
  rw [List.map_flatMap]
  apply flatMapCongr
  intro d _
  rw [List.map_map]
  apply List.map_congr_left
  intro r0 _
  simp only [Function.comp]
  unfold key_rd
  rw [DF.cell_eq, DF.cell_eq]
  rw [melt_row_cell_id hRID (by decide) d r0, melt_row_cell_date hd d r0]

theorem keys_rd_melt_nodup (df : DF) (v : String)
    (hcols : df.cols.Nodup) (hRID : "RegionID" ∈ df.cols) (hd : "date" ∉ df.cols)
    (hids : (df.rows.map (fun r => cellL df.cols r "RegionID")).Nodup) :
    (keys_rd (melt df v)).Nodup := by
  rw [keys_rd_melt df v hRID hd]
  rw [List.nodup_flatMap]
  constructor
  · intro d _
    have hmm : df.rows.map (fun r0 => (cellL df.cols r0 "RegionID", some d))
        = (df.rows.map (fun r => cellL df.cols r "RegionID")).map
            (fun x => (x, (some d : Option String))) := by
      rw [List.map_map]
      rfl
    rw [hmm]
    exact hids.map (fun a b h => (Prod.ext_iff.1 h).1)
  · have hdts : (df.cols.filter (fun c => firstIsDigit c)).Nodup := hcols.filter _
    refine hdts.imp ?_
    intro a b hne x hxa hxb
    obtain ⟨r1, _, h1⟩ := List.mem_map.1 hxa
    obtain ⟨r2, _, h2⟩ := List.mem_map.1 hxb
    have hsnd := congrArg Prod.snd (h1.trans h2.symm)
    exact hne (Option.some.inj hsnd)

theorem melt_RID_mem (df : DF) (v : String) (hRID : "RegionID" ∈ df.cols) :
    "RegionID" ∈ (melt df v).cols := by
  rw [melt_cols]
  exact List.mem_append_left _ (List.mem_filter.2 ⟨hRID, by decide⟩)

theorem melt_date_mem (df : DF) (v : String) : "date" ∈ (melt df v).cols := by
  rw [melt_cols]
  simp

theorem not_mem_melt_cols {d0 : DF} {v0 v' : String}
    (h1 : v' ∉ d0.cols) (h2 : v' ≠ "date") (h3 : v' ≠ v0) :
    v' ∉ (melt d0 v0).cols := by
  rw [melt_cols]
  intro hmem
  rcases List.mem_append.1 hmem with hm | hm
  · exact h1 (List.mem_of_mem_filter hm)
  · simp only [List.mem_cons, List.mem_singleton, List.not_mem_nil, or_false] at hm
    rcases hm with hm | hm
    · exact h2 hm
    · exact h3 hm

theorem chooseValueCol_melt (df : DF) (v : String) (vcols : List String)
    (hvin : v ∈ vcols) (hdnot : "date" ∉ vcols) (hdisj : ∀ c ∈ df.cols, c ∉ vcols) :
    chooseValueCol (melt df v) vcols = some v := by
  unfold chooseValueCol
  rw [melt_cols, List.filter_append]
  have h1 : (df.cols.filter (fun c => !firstIsDigit c)).filter
      (fun c => decide (c ∈ vcols)) = [] := by
    rw [List.filter_eq_nil_iff]
    intro c hc
    simp [hdisj c (List.mem_of_mem_filter hc)]
  rw [h1]
  simp [List.filter_cons, hdnot, hvin]

/-! ### standardize_columns: key preservation through the stages -/

theorem renameMap_eq_date {c : String} (h : renameMap c = "date") : c = "date" := by
  unfold renameMap at h
  split_ifs at h with h1 h2 h3
  · exact absurd h (by decide)
  · exact absurd h (by decide)
  · exact absurd h (by decide)
  · exact h

theorem renameMap_eq_region_id {c : String} (h : renameMap c = "region_id") :
    c = "RegionID" ∨ c = "region_id" := by
  unfold renameMap at h
  split_ifs at h with h1 h2 h3
  · exact Or.inl h1
  · exact absurd h (by decide)
  · exact absurd h (by decide)
  · exact Or.inr h

theorem keys_out_stdRename (df : DF) (hfresh : "region_id" ∉ df.cols) :
    keys_out (stdRename df)
      = df.rows.map (fun r => (cellL df.cols r "date", cellL df.cols r "RegionID")) := by
  show df.rows.map _ = _
  apply List.map_congr_left
  intro r _
  unfold key_out
  rw [DF.cell_eq, DF.cell_eq]
  show (cellL (df.cols.map renameMap) r "date", cellL (df.cols.map renameMap) r "region_id") = _
  have hd : cellL (df.cols.map renameMap) r "date" = cellL df.cols r "date" := by
    rw [show ("date" : String) = renameMap "date" from by decide]
    exact cellL_rename r (fun c' _ he => renameMap_eq_date (by
      rw [show renameMap "date" = "date" from by decide] at he
      exact he))
  have hr : cellL (df.cols.map renameMap) r "region_id" = cellL df.cols r "RegionID" := by
    rw [show ("region_id" : String) = renameMap "RegionID" from by decide]
    refine cellL_rename r ?_
    intro c' hc' he
    rw [show renameMap "RegionID" = "region_id" from by decide] at he
    rcases renameMap_eq_region_id he with hc | hc
    · exact hc
    · exact absurd (hc ▸ hc') hfresh
  rw [hd, hr]

theorem keys_out_dropCols (cs : List String) (df : DF) (hWF : df.WF)
    (h1 : "date" ∉ cs) (h2 : "region_id" ∉ cs) :
    keys_out (dropCols cs df) = keys_out df := by
  show (df.rows.map _).map _ = df.rows.map _
  rw [List.map_map]
  apply List.map_congr_left
  intro r hr
  simp only [Function.comp]
  unfold key_out
  rw [DF.cell_eq, DF.cell_eq, DF.cell_eq, DF.cell_eq]
  show (cellL (df.cols.filter _) (dropRow df.cols cs r) "date",
        cellL (df.cols.filter _) (dropRow df.cols cs r) "region_id") = _
  rw [cellL_dropRow h1 r (hWF r hr), cellL_dropRow h2 r (hWF r hr)]

theorem keys_out_mapCol (c : String) (f : Option String → Option String) (df : DF)
    (h1 : c ≠ "date") (h2 : c ≠ "region_id") :
    keys_out (mapCol c f df) = keys_out df := by
  unfold mapCol
  cases hc : colIdx df.cols c with
  | none => rfl
  | some i =>
    show (df.rows.map _).map _ = df.rows.map _
    rw [List.map_map]
    apply List.map_congr_left
    intro r _
    simp only [Function.comp]
    unfold key_out
    rw [DF.cell_eq, DF.cell_eq, DF.cell_eq, DF.cell_eq]
    show (cellL df.cols (r.set i _) "date", cellL df.cols (r.set i _) "region_id") = _
    rw [cellL_set_name_ne (Ne.symm h1) hc r _, cellL_set_name_ne (Ne.symm h2) hc r _]

theorem stdState_WF (rt : String) (df : DF) (hWF : df.WF) : (stdState rt df).WF := by
  unfold stdState
  split_ifs
  · exact dropCols_WF _ _ hWF
  · exact mapCol_WF _ _ _ hWF
  · exact hWF

theorem keys_out_stdState (rt : String) (df : DF) (hWF : df.WF) :
    keys_out (stdState rt df) = keys_out df := by
  unfold stdState
  split_ifs
  · exact keys_out_dropCols _ df hWF (by decide) (by decide)
  · exact keys_out_mapCol _ _ df (by decide) (by decide)
  · rfl

theorem keys_out_stdDate (fmt : String → String) (df : DF) (hWF : df.WF)
    (hd : "date" ∈ df.cols) :
    keys_out (stdDate fmt df) = (keys_out df).map (fun k => (k.1.map fmt, k.2)) := by
  unfold stdDate mapCol
  cases hc : colIdx df.cols "date" with
  | none => exact absurd ((colIdx_eq_none_iff _ _).1 hc) (by simp [hd])
  | some i =>
    show (df.rows.map _).map _ = (df.rows.map _).map _
    rw [List.map_map, List.map_map]
    apply List.map_congr_left
    intro r hr
    simp only [Function.comp]
    unfold key_out
    rw [DF.cell_eq, DF.cell_eq, DF.cell_eq, DF.cell_eq]
    show (cellL df.cols (r.set i _) "date", cellL df.cols (r.set i _) "region_id")
        = ((cellL df.cols r "date").map fmt, cellL df.cols r "region_id")
    have hlen : i < r.length := by
      rw [hWF r hr]
      exact colIdx_lt_length hc
    rw [cellL_set_map_self (fun x => x.map fmt) hc hlen,
      cellL_set_name_ne (by decide) hc r _]

theorem keys_out_stdNumeric (toNum : String → Option String) (vcs : List String) (df : DF)
    (hvc : ∀ c ∈ vcs, c ≠ "date" ∧ c ≠ "region_id") :
    keys_out (stdNumeric toNum vcs df) = keys_out df := by
  unfold stdNumeric
  induction vcs generalizing df with
  | nil => rfl
  | cons c cs ih =>
    simp only [List.foldl_cons]
    obtain ⟨h1, h2⟩ := hvc c (by simp)
    have hvc' : ∀ c' ∈ cs, c' ≠ "date" ∧ c' ≠ "region_id" :=
      fun c' hc' => hvc c' (by simp [hc'])
    by_cases hc : c ∈ df.cols
    · rw [if_pos hc, ih (mapCol c _ df) hvc', keys_out_mapCol c _ df h1 h2]
    · rw [if_neg hc, ih df hvc']

theorem keys_out_stdDropNa_sublist (vcs : List String) (df : DF) :
    (keys_out (stdDropNa vcs df)).Sublist (keys_out df) := by
  have hcols : (stdDropNa vcs df).cols = df.cols := stdDropNa_cols vcs df
  have hrows := stdDropNa_rows_sublist vcs df
  show ((stdDropNa vcs df).rows.map _).Sublist (df.rows.map _)
  have hkey : key_out (stdDropNa vcs df) = key_out df := by
    funext r
    unfold key_out
    rw [DF.cell_eq, DF.cell_eq, DF.cell_eq, DF.cell_eq, hcols]
  rw [hkey]
  exact hrows.map _

theorem keys_out_stdSort_perm (df : DF) :
    (keys_out (stdSort df)).Perm (keys_out df) := by
  have hkey : key_out (stdSort df) = key_out df := by
    funext r
    unfold key_out
    rw [DF.cell_eq, DF.cell_eq, DF.cell_eq, DF.cell_eq, stdSort_cols]
  show ((stdSort df).rows.map _).Perm (df.rows.map _)
  rw [hkey]
  exact (stdSort_rows_perm df).map _

theorem mem_cols_stdState {c : String} (rt : String) (df : DF)
    (hc : c ∈ df.cols) (hne : c ≠ "state_code") : c ∈ (stdState rt df).cols := by
  unfold stdState
  split_ifs
  · exact List.mem_filter.2 ⟨hc, by simp [hne]⟩
  · rw [mapCol_cols]
    exact hc
  · exact hc

theorem standardize_columns_none (fmt : String → String) (toNum : String → Option String)
    (rt : String) (vcs : List String) (df : DF) (hrt : REGION_TYPE_FILTER rt = none) :
    standardize_columns fmt toNum rt vcs df = none := by
  unfold standardize_columns
  rw [hrt]

theorem standardize_columns_eq (fmt : String → String) (toNum : String → Option String)
    (rt : String) (vcs : List String) (df : DF) (tag : String)
    (hrt : REGION_TYPE_FILTER rt = some tag) :
    standardize_columns fmt toNum rt vcs df
      = (if (filterRegion tag df).rows.isEmpty then some (filterRegion tag df)
         else some (stdSort (stdDropNa vcs (stdNumeric toNum vcs (stdDate fmt (stdState rt
           (dropCols ["SizeRank", "RegionType"] (stdRename (filterRegion tag df))))))))) := by
  unfold standardize_columns
  rw [hrt]

theorem standardize_empty (fmt : String → String) (toNum : String → Option String)
    (rt : String) (vcs : List String) (cols : List String) (out : DF)
    (h : standardize_columns fmt toNum rt vcs ⟨cols, []⟩ = some out) : out.rows = [] := by
  cases hrt : REGION_TYPE_FILTER rt with
  | none =>
    rw [standardize_columns_none fmt toNum rt vcs _ hrt] at h
    exact Option.noConfusion h
  | some tag =>
    rw [standardize_columns_eq fmt toNum rt vcs _ tag hrt] at h
    have hfe : filterRegion tag ⟨cols, []⟩ = (⟨cols, []⟩ : DF) := by
      unfold filterRegion
      split_ifs <;> rfl
    rw [hfe] at h
    have hcond : (DF.mk cols []).rows.isEmpty = true := rfl
    rw [if_pos hcond] at h
    rw [← Option.some.inj h]

/-- Key lemma for C1: the `(date, region_id)` key list of a standardized
frame is, up to permutation, a sublist of the date-reformatted
`(date, RegionID)` key list of the input frame. -/
theorem standardize_keys_subperm
    (fmt : String → String) (toNum : String → Option String)
    (rt : String) (vcs : List String) (df : DF)
    (hWF : df.WF) (hdate : "date" ∈ df.cols) (hfresh : "region_id" ∉ df.cols)
    (hvc : ∀ c ∈ vcs, c ≠ "date" ∧ c ≠ "region_id")
    (out : DF) (hout : standardize_columns fmt toNum rt vcs df = some out) :
    (keys_out out).Subperm
      (df.rows.map (fun r => ((cellL df.cols r "date").map fmt, cellL df.cols r "RegionID"))) := by
  cases hrt : REGION_TYPE_FILTER rt with
  | none =>
    rw [standardize_columns_none fmt toNum rt vcs df hrt] at hout
    exact Option.noConfusion hout
  | some tag =>
    rw [standardize_columns_eq fmt toNum rt vcs df tag hrt] at hout
    have hsub1 : (filterRegion tag df).rows.Sublist df.rows := filterRegion_rows_sublist tag df
    have hWF1 : (filterRegion tag df).WF := filterRegion_WF tag df hWF
    by_cases hemp : (filterRegion tag df).rows.isEmpty
    · rw [if_pos hemp] at hout
      have hoeq : out = filterRegion tag df := (Option.some.inj hout).symm
      have hnil : keys_out out = [] := by
        rw [hoeq]
        show (filterRegion tag df).rows.map _ = _
        rw [List.isEmpty_iff.1 hemp]
        rfl
      rw [hnil]
      exact List.nil_subperm
    · rw [if_neg hemp] at hout
      set df1 := filterRegion tag df with hdf1
      set df2 := stdRename df1 with hdf2
      set df3 := dropCols ["SizeRank", "RegionType"] df2 with hdf3
      set df4 := stdState rt df3 with hdf4
      set df5 := stdDate fmt df4 with hdf5
      set df6 := stdNumeric toNum vcs df5 with hdf6
      set df7 := stdDropNa vcs df6 with hdf7
      have hoeq : out = stdSort df7 := (Option.some.inj hout).symm
      have hcols1 : df1.cols = df.cols := filterRegion_cols tag df
      have hfresh1 : "region_id" ∉ df1.cols := by
        rw [hcols1]
        exact hfresh
      have hWF2 : df2.WF := stdRename_WF df1 hWF1
      have hWF3 : df3.WF := dropCols_WF _ _ hWF2
      have hWF4 : df4.WF := stdState_WF rt df3 hWF3
      have hdm2 : "date" ∈ df2.cols := by
        show "date" ∈ df1.cols.map renameMap
        refine List.mem_map.2 ⟨"date", ?_, by decide⟩
        rw [hcols1]
        exact hdate
      have hdm3 : "date" ∈ df3.cols := List.mem_filter.2 ⟨hdm2, by decide⟩
      have hdm4 : "date" ∈ df4.cols := mem_cols_stdState rt df3 hdm3 (by decide)
      have hk2 : keys_out df2
          = df1.rows.map (fun r => (cellL df.cols r "date", cellL df.cols r "RegionID")) := by
        rw [keys_out_stdRename df1 hfresh1, hcols1]
      have hk3 : keys_out df3 = keys_out df2 :=
        keys_out_dropCols _ df2 hWF2 (by decide) (by decide)
      have hk4 : keys_out df4 = keys_out df3 := keys_out_stdState rt df3 hWF3
      have hk5 : keys_out df5 = (keys_out df4).map (fun k => (k.1.map fmt, k.2)) :=
        keys_out_stdDate fmt df4 hWF4 hdm4
      have hk6 : keys_out df6 = keys_out df5 := keys_out_stdNumeric toNum vcs df5 hvc
      have hk7 : (keys_out df7).Sublist (keys_out df6) := keys_out_stdDropNa_sublist vcs df6
      have hkout : (keys_out out).Perm (keys_out df7) := by
        rw [hoeq]
        exact keys_out_stdSort_perm df7
      have htar : ((keys_out df4).map (fun k => (k.1.map fmt, k.2))).Sublist
          (df.rows.map (fun r => ((cellL df.cols r "date").map fmt,
            cellL df.cols r "RegionID"))) := by
        rw [hk4, hk3, hk2, List.map_map]
        have hfun : ((fun k : Option String × Option String => (k.1.map fmt, k.2))
            ∘ (fun r => (cellL df.cols r "date", cellL df.cols r "RegionID")))
            = fun r => ((cellL df.cols r "date").map fmt, cellL df.cols r "RegionID") := rfl
        rw [hfun]
        exact hsub1.map _
      have hchain : (keys_out df7).Sublist
          ((keys_out df4).map (fun k => (k.1.map fmt, k.2))) := by
        rw [← hk5, ← hk6]
        exact hk7
      exact ⟨keys_out df7, hkout.symm, hchain.trans htar⟩

/-- C1 (amended): the transform pipeline — melt each raw variant,
outer-merge the variants on `(RegionID, date)`, then standardize — yields a
table whose `(date, region_id)` pairs are pairwise distinct, provided each
raw variant's rows carry pairwise-distinct RegionID values and the date
formatter is injective (plus column-name well-formedness conditions that
hold for the real Zillow CSVs).  The claim as frozen, with no conditions on
the input, is refuted by `transform_unique_keys_counterexample`. -/
theorem transform_unique_keys
    (raws : List (DF × String)) (rt : String) (vcols : List String)
    (fmt : String → String) (toNum : String → Option String)
    (hfmt : Function.Injective fmt)
    (hvdate : "date" ∉ vcols) (hvrid : "region_id" ∉ vcols)
    (hraws : ∀ p ∈ raws,
      p.1.cols.Nodup ∧ "RegionID" ∈ p.1.cols ∧ "date" ∉ p.1.cols ∧
      "region_id" ∉ p.1.cols ∧ p.2 ∈ vcols ∧ p.2 ≠ "date" ∧ p.2 ≠ "region_id" ∧
      (∀ c ∈ p.1.cols, c ∉ vcols) ∧
      (p.1.rows.map (fun r => cellL p.1.cols r "RegionID")).Nodup)
    (hvnodup : (raws.map (fun p => p.2)).Nodup)
    (M : DF) (hM : merge_variants (raws.map (fun p => melt p.1 p.2)) vcols = some M)
    (out : DF) (hout : standardize_columns fmt toNum rt vcols M = some out) :
    (keys_out out).Nodup := by
  cases raws with
  | nil =>
    simp only [List.map_nil] at hM
    have hMe : M = ⟨[], []⟩ := (Option.some.inj hM).symm
    subst hMe
    have hrows := standardize_empty fmt toNum rt vcols [] out hout
    have hnil : keys_out out = [] := by
      show out.rows.map _ = _
      rw [hrows]
      rfl
    rw [hnil]
    exact List.nodup_nil
  | cons p0 rest =>
    obtain ⟨hnod0, hRID0, hdate0, hrid0, hv0, hv0d, hv0r, hdisj0, hids0⟩ := hraws p0 (by simp)
    have hRIDnotv : "RegionID" ∉ vcols := hdisj0 "RegionID" hRID0
    rw [List.map_cons, List.nodup_cons] at hvnodup
    obtain ⟨hp0notin, hrestnodup⟩ := hvnodup
    set m0 := melt p0.1 p0.2 with hm0
    set ps : List (DF × String) := rest.map (fun p => (melt p.1 p.2, p.2)) with hps
    have hpsfst : ps.map (fun p => p.1) = rest.map (fun p => melt p.1 p.2) := by
      rw [hps, List.map_map]
      rfl
    have hpssnd : ps.map (fun p => p.2) = rest.map (fun p => p.2) := by
      rw [hps, List.map_map]
      rfl
    have hWFm0 : m0.WF := melt_WF p0.1 p0.2
    have hRIDm0 : "RegionID" ∈ m0.cols := melt_RID_mem _ _ hRID0
    have hdatem0 : "date" ∈ m0.cols := melt_date_mem _ _
    have hchoose : ∀ p ∈ ps, chooseValueCol p.1 vcols = some p.2 := by
      intro p hp
      rw [hps] at hp
      obtain ⟨q, hq, rfl⟩ := List.mem_map.1 hp
      obtain ⟨-, -, -, -, hqv, -, -, hqdisj, -⟩ := hraws q (by simp [hq])
      exact chooseValueCol_melt q.1 q.2 vcols hqv hvdate hqdisj
    have hfreshps : ∀ p ∈ ps, p.2 ≠ "RegionID" ∧ p.2 ≠ "date" ∧ p.2 ∉ m0.cols := by
      intro p hp
      rw [hps] at hp
      obtain ⟨q, hq, rfl⟩ := List.mem_map.1 hp
      obtain ⟨-, -, -, -, hqv, hqd, -, hqdisj0, -⟩ := hraws q (by simp [hq])
      refine ⟨fun he => hRIDnotv (he ▸ hqv), hqd, ?_⟩
      apply not_mem_melt_cols
      · exact fun hmem => (hdisj0 q.2 hmem) hqv
      · exact hqd
      · intro he
        exact hp0notin (List.mem_map.2 ⟨q, hq, he⟩)
    have hnodupps : (ps.map (fun p => p.2)).Nodup := by
      rw [hpssnd]
      exact hrestnodup
    have hkeys0 : ∀ k, k ∈ keys_rd m0 ↔ ∃ p ∈ [(m0, p0.2)], k ∈ keys_rd p.1 := by
      intro k
      simp
    have hdonecols0 : ∀ p ∈ [(m0, p0.2)],
        p.2 ∈ m0.cols ∧ p.2 ≠ "RegionID" ∧ p.2 ≠ "date" := by
      intro p hp
      have hpq : p = (m0, p0.2) := by simpa using hp
      subst hpq
      refine ⟨?_, fun he => hRIDnotv (he ▸ hv0), hv0d⟩
      rw [hm0, melt_cols]
      exact List.mem_append_right _ (by simp)
    have hdonenull0 : ∀ p ∈ [(m0, p0.2)], (∀ r ∈ p.1.rows, p.1.cell r p.2 ≠ none) →
        ∀ r ∈ m0.rows, (m0.cell r p.2 = none ↔ key_rd m0 r ∉ keys_rd p.1) := by
      intro p hp hnn
      have hpq : p = (m0, p0.2) := by simpa using hp
      subst hpq
      intro r hr
      exact ⟨fun hnone => absurd hnone (hnn r hr),
             fun hnmem => absurd (List.mem_map.2 ⟨r, hr, rfl⟩) hnmem⟩
    obtain ⟨M', hM', hMcols, hMWF, -, -, hMnodup⟩ :=
      mergeAux_spec vcols ps m0 [(m0, p0.2)] hWFm0 hRIDm0 hdatem0 hchoose hfreshps
        hnodupps hkeys0 hdonecols0 hdonenull0
    have hMM : M' = M := by
      have hMtoAux : merge_variants ((p0 :: rest).map (fun p => melt p.1 p.2)) vcols
          = mergeAux vcols m0 (ps.map (fun p => p.1)) := by
        rw [hpsfst, List.map_cons]
        rfl
      rw [hMtoAux] at hM
      exact Option.some.inj (hM'.symm.trans hM)
    subst hMM
    have hnodupM : (keys_rd M').Nodup := by
      apply hMnodup
      · exact keys_rd_melt_nodup p0.1 p0.2 hnod0 hRID0 hdate0 hids0
      · intro p hp
        rw [hps] at hp
        obtain ⟨q, hq, rfl⟩ := List.mem_map.1 hp
        obtain ⟨hqn, hqR, hqd, -, -, -, -, -, hqids⟩ := hraws q (by simp [hq])
        exact keys_rd_melt_nodup q.1 q.2 hqn hqR hqd hqids
    have hdateM : "date" ∈ M'.cols := by
      rw [hMcols]
      exact List.mem_append_left _ hdatem0
    have hfreshM : "region_id" ∉ M'.cols := by
      rw [hMcols]
      intro hmem
      rcases List.mem_append.1 hmem with hm | hm
      · exact (not_mem_melt_cols hrid0 (by decide) (Ne.symm hv0r)) (by rw [← hm0]; exact hm)
      · rw [hpssnd] at hm
        obtain ⟨q, hq, hqe⟩ := List.mem_map.1 hm
        obtain ⟨-, -, -, -, -, -, hqr, -, -⟩ := hraws q (by simp [hq])
        exact hqr hqe
    have hvc : ∀ c ∈ vcols, c ≠ "date" ∧ c ≠ "region_id" := by
      intro c hc
      exact ⟨fun he => hvdate (he ▸ hc), fun he => hvrid (he ▸ hc)⟩
    have hsubp := standardize_keys_subperm fmt toNum rt vcols M' hMWF hdateM hfreshM hvc out hout
    have htarget : (M'.rows.map (fun r => ((cellL M'.cols r "date").map fmt,
        cellL M'.cols r "RegionID"))).Nodup := by
      have heq : M'.rows.map (fun r => ((cellL M'.cols r "date").map fmt,
          cellL M'.cols r "RegionID"))
          = (keys_rd M').map (fun k => (k.2.map fmt, k.1)) := by
        show _ = (M'.rows.map _).map _
        rw [List.map_map]
        rfl
      rw [heq]
      refine hnodupM.map ?_
      intro a b h
      obtain ⟨h1, h2⟩ := Prod.ext_iff.1 h
      exact Prod.ext_iff.2 ⟨h2, Option.map_injective hfmt h1⟩
    obtain ⟨l, hperm, hsub⟩ := hsubp
    exact hperm.nodup_iff.1 (hsub.nodup htarget)

theorem transform_unique_keys_witness :
    (keys_out ⟨["region_id", "date", "all_homes"],
        [[some "1", some "1/31/2020", some "5"]]⟩).Nodup :=
  transform_unique_keys
    [(⟨["RegionID", "RegionType", "1/31/2020"],
        [[some "1", some "msa", some "5"]]⟩, "all_homes")]
    "metro" ["all_homes"] (fun s => s) some
    (fun _ _ h => h)
    (by decide) (by decide) (by decide) (by decide)
    ⟨["RegionID", "RegionType", "date", "all_homes"],
      [[some "1", some "msa", some "1/31/2020", some "5"]]⟩
    (by decide)
    ⟨["region_id", "date", "all_homes"], [[some "1", some "1/31/2020", some "5"]]⟩
    (by decide)

/-- C1 counterexample: with a raw variant whose rows repeat a RegionID, the
transform stage (melt, merge, standardize) produces a table in which two
rows share the same `(date, region_id)` pair — refuting the uniqueness
claim as universally stated. -/
theorem transform_unique_keys_counterexample :
    merge_variants
        [melt ⟨["RegionID", "RegionType", "1/31/2020"],
            [[some "1", some "msa", some "5"], [some "1", some "msa", some "6"]]⟩ "all_homes"]
        ["all_homes"]
      = some ⟨["RegionID", "RegionType", "date", "all_homes"],
          [[some "1", some "msa", some "1/31/2020", some "5"],
           [some "1", some "msa", some "1/31/2020", some "6"]]⟩ ∧
    standardize_columns (fun s => s) some "metro" ["all_homes"]
        ⟨["RegionID", "RegionType", "date", "all_homes"],
          [[some "1", some "msa", some "1/31/2020", some "5"],
           [some "1", some "msa", some "1/31/2020", some "6"]]⟩
      = some ⟨["region_id", "date", "all_homes"],
          [[some "1", some "1/31/2020", some "5"],
           [some "1", some "1/31/2020", some "6"]]⟩ ∧
    ¬ (keys_out ⟨["region_id", "date", "all_homes"],
          [[some "1", some "1/31/2020", some "5"],
           [some "1", some "1/31/2020", some "6"]]⟩).Nodup := by
  refine ⟨by decide, by decide, by decide⟩

/-! ### C7 — state_code handling in standardize_columns -/

theorem stdDate_cols (fmt : String → String) (df : DF) : (stdDate fmt df).cols = df.cols :=
  mapCol_cols _ _ _

theorem state_code_not_mem_stdState_state (df : DF) :
    "state_code" ∉ (stdState "state" df).cols := by
  unfold stdState
  by_cases h : "state_code" ∈ df.cols
  · rw [if_pos h, if_pos rfl]
    intro hmem
    have hx := (List.mem_filter.1 hmem).2
    simp at hx
  · rw [if_neg h]
    exact h

theorem stdState_fill_isSome (rt : String) (df : DF) (hrt : rt ≠ "state") (hWF : df.WF) :
    ∀ r ∈ (stdState rt df).rows, "state_code" ∈ (stdState rt df).cols →
      (cellL (stdState rt df).cols r "state_code").isSome = true := by
  unfold stdState
  by_cases h : "state_code" ∈ df.cols
  · rw [if_pos h, if_neg hrt]
    unfold mapCol
    cases hc : colIdx df.cols "state_code" with
    | none => exact absurd ((colIdx_eq_none_iff _ _).1 hc) (by simp [h])
    | some i =>
      intro r hr _
      obtain ⟨r0, hr0, rfl⟩ := List.mem_map.1 hr
      show (cellL df.cols (r0.set i ((fun x => some (x.getD "")) (r0.getD i none)))
          "state_code").isSome = true
      rw [cellL_set_map_self (fun x => some (x.getD "")) hc
        (by rw [hWF r0 hr0]; exact colIdx_lt_length hc)]
      rfl
  · rw [if_neg h]
    intro r _ hmem
    exact absurd hmem h

theorem mapCol_forall_cell (c : String) (f : Option String → Option String) (df : DF)
    (c0 : String) (hne : c0 ≠ c) (P : Option String → Prop)
    (h : ∀ r ∈ df.rows, P (cellL df.cols r c0)) :
    ∀ r ∈ (mapCol c f df).rows, P (cellL df.cols r c0) := by
  unfold mapCol
  cases hc : colIdx df.cols c with
  | none => exact h
  | some i =>
    intro r hr
    obtain ⟨r0, hr0, rfl⟩ := List.mem_map.1 hr
    rw [cellL_set_name_ne hne hc r0 _]
    exact h r0 hr0

theorem stdNumeric_forall_cell (toNum : String → Option String) (vcs : List String) :
    ∀ (df : DF) (c0 : String), c0 ∉ vcs → ∀ (P : Option String → Prop),
    (∀ r ∈ df.rows, P (cellL df.cols r c0)) →
    ∀ r ∈ (stdNumeric toNum vcs df).rows, P (cellL df.cols r c0) := by
  induction vcs with
  | nil =>
    intro df c0 _ P h
    exact h
  | cons c cs ih =>
    intro df c0 hc0 P h
    have hstep : stdNumeric toNum (c :: cs) df
        = stdNumeric toNum cs
            (if c ∈ df.cols then mapCol c (fun x => x.bind toNum) df else df) := rfl
    rw [hstep]
    by_cases hc : c ∈ df.cols
    · rw [if_pos hc]
      intro r hr
      have hres := ih (mapCol c (fun x => x.bind toNum) df) c0
        (fun hm => hc0 (by simp [hm])) P
        (fun r' hr' => by
          rw [mapCol_cols]
          exact mapCol_forall_cell c _ df c0 (fun he => hc0 (by simp [he])) P h r' hr')
        r hr
      rw [mapCol_cols] at hres
      exact hres
    · rw [if_neg hc]
      exact ih df c0 (fun hm => hc0 (by simp [hm])) P h

/-- C7 (amended): in `standardize_columns`, (a) for the "state" granularity
the output has no `state_code` column provided the region-type-filtered
frame is nonempty (the empty-input early return hands back the unrenamed
frame, which may still carry a literal `state_code` column — see the
counterexample); (b) for every other region type, on a rectangular frame
whose value columns do not include `state_code`, any `state_code` column of
the output contains no nulls (nulls are replaced by the empty string). -/
theorem standardize_state_code (fmt : String → String) (toNum : String → Option String)
    (vcs : List String) (df : DF) :
    ((filterRegion "state" df).rows ≠ [] →
      ∀ out, standardize_columns fmt toNum "state" vcs df = some out →
        "state_code" ∉ out.cols) ∧
    (∀ rt ∈ REGION_TYPES, rt ≠ "state" → "state_code" ∉ vcs → df.WF →
      ∀ out, standardize_columns fmt toNum rt vcs df = some out →
        ∀ r ∈ out.rows, "state_code" ∈ out.cols →
          (out.cell r "state_code").isSome = true) := by
  constructor
  · intro hne out hout
    rw [standardize_columns_eq fmt toNum "state" vcs df "state" (by decide)] at hout
    have hemp : ¬ (filterRegion "state" df).rows.isEmpty = true := by
      intro h
      exact hne (List.isEmpty_iff.1 h)
    rw [if_neg hemp] at hout
    have hoeq : out = stdSort (stdDropNa vcs (stdNumeric toNum vcs (stdDate fmt (stdState "state"
        (dropCols ["SizeRank", "RegionType"] (stdRename (filterRegion "state" df))))))) :=
      (Option.some.inj hout).symm
    rw [hoeq, stdSort_cols, stdDropNa_cols, stdNumeric_cols, stdDate_cols]
    exact state_code_not_mem_stdState_state _
  · intro rt hrtmem hrts hscv hWF out hout r hr hmem
    obtain ⟨tag, hrt⟩ : ∃ tag, REGION_TYPE_FILTER rt = some tag := by
      have hx : rt = "metro" ∨ rt = "state" ∨ rt = "county" ∨ rt = "city" ∨ rt = "zip" := by
        simpa [REGION_TYPES] using hrtmem
      rcases hx with rfl | rfl | rfl | rfl | rfl <;> exact ⟨_, rfl⟩
    rw [standardize_columns_eq fmt toNum rt vcs df tag hrt] at hout
    by_cases hemp : (filterRegion tag df).rows.isEmpty
    · rw [if_pos hemp] at hout
      have hoeq : out = filterRegion tag df := (Option.some.inj hout).symm
      rw [hoeq, List.isEmpty_iff.1 hemp] at hr
      cases hr
    · rw [if_neg hemp] at hout
      set df1 := filterRegion tag df with hdf1
      set df2 := stdRename df1 with hdf2
      set df3 := dropCols ["SizeRank", "RegionType"] df2 with hdf3
      set df4 := stdState rt df3 with hdf4
      set df5 := stdDate fmt df4 with hdf5
      set df6 := stdNumeric toNum vcs df5 with hdf6
      set df7 := stdDropNa vcs df6 with hdf7
      have hoeq : out = stdSort df7 := (Option.some.inj hout).symm
      have hWF1 : df1.WF := filterRegion_WF tag df hWF
      have hWF2 : df2.WF := stdRename_WF df1 hWF1
      have hWF3 : df3.WF := dropCols_WF _ _ hWF2
      have hcols5 : df5.cols = df4.cols := stdDate_cols fmt df4
      have hcols6 : df6.cols = df5.cols := stdNumeric_cols toNum vcs df5
      have hcols7 : df7.cols = df6.cols := stdDropNa_cols vcs df6
      have hcolsout : out.cols = df4.cols := by
        rw [hoeq, stdSort_cols, hcols7, hcols6, hcols5]
      have hmem4 : "state_code" ∈ df4.cols := by
        rw [← hcolsout]
        exact hmem
      have hbase := stdState_fill_isSome rt df3 hrts hWF3
      have h5 : ∀ r' ∈ df5.rows, (cellL df4.cols r' "state_code").isSome = true := by
        intro r' hr'
        exact mapCol_forall_cell "date" _ df4 "state_code" (by decide)
          (fun x => x.isSome = true) (fun r'' hr'' => hbase r'' hr'' hmem4) r' hr'
      have h6 : ∀ r' ∈ df6.rows, (cellL df4.cols r' "state_code").isSome = true := by
        intro r' hr'
        have hres := stdNumeric_forall_cell toNum vcs df5 "state_code" hscv
          (fun x => x.isSome = true)
          (fun r'' hr'' => by rw [hcols5]; exact h5 r'' hr'') r' hr'
        rw [hcols5] at hres
        exact hres
      have h7 : ∀ r' ∈ df7.rows, (cellL df4.cols r' "state_code").isSome = true :=
        fun r' hr' => h6 r' ((stdDropNa_rows_sublist vcs df6).mem hr')
      have hrin7 : r ∈ df7.rows := by
        have hperm : out.rows.Perm df7.rows := by
          rw [hoeq]
          exact stdSort_rows_perm df7
        exact hperm.mem_iff.1 hr
      rw [DF.cell_eq, hcolsout]
      exact h7 r hrin7

/-- C7 counterexample: the empty early return of `standardize_columns` with
`region_type = "state"` hands back the region-filtered frame with its
original column labels, so an input frame carrying a literal `state_code`
column yields an output that still has a `state_code` column. -/
theorem standardize_state_code_counterexample :
    standardize_columns (fun s => s) some "state" []
        ⟨["RegionType", "state_code"], [[some "city", some "x"]]⟩
      = some ⟨["RegionType", "state_code"], []⟩ ∧
    "state_code" ∈ (⟨["RegionType", "state_code"], []⟩ : DF).cols := by
  refine ⟨by decide, by decide⟩

theorem standardize_state_code_witness :
    ("state_code" ∉ (⟨([] : List String), [([] : List (Option String))]⟩ : DF).cols) ∧
    (∀ r ∈ (⟨["state_code"], [[some ""]]⟩ : DF).rows,
      "state_code" ∈ (⟨["state_code"], [[some ""]]⟩ : DF).cols →
        ((⟨["state_code"], [[some ""]]⟩ : DF).cell r "state_code").isSome = true) :=
  ⟨(standardize_state_code (fun s => s) some []
      ⟨["RegionType", "StateName"], [[some "state", some "CA"]]⟩).1
      (by decide)
      ⟨[], [[]]⟩ (by decide),
   (standardize_state_code (fun s => s) some []
      ⟨["RegionType", "StateName"], [[some "msa", none]]⟩).2
      "metro" (by decide) (by decide) (by decide) (by decide)
      ⟨["state_code"], [[some ""]]⟩ (by decide)⟩

end Zillow
